import Mathlib

set_option maxRecDepth 8000

/-!
Verification development for the inscription transaction builder in
coins/bitcoin/inscribe.go.

The embedding mirrors the Go source.  Byte strings are `List Nat`
(one entry per byte).  Pure helpers of the btcd wire package
(serialize sizes, the txscript script builder encodings) are embedded
concretely from their well-known definitions, since the source's fee
formulas depend on them byte-for-byte.  Cryptographic and
serialization collaborators declared out of scope by the code's own
structure (WIF decoding, address decoding, taproot tweaking, schnorr
signing, sighash computation, transaction hashing and hex
serialization) are abstracted into an `Env` record of opaque-to-us but
executable functions, so every definition stays computable and can be
evaluated on a concrete test environment.
-/

namespace Inscribe

/-- Previous outpoint of a transaction input: 32-byte hash plus index
(wire.OutPoint). -/
structure OutPoint where
  hash : List Nat
  index : Nat
deriving DecidableEq

/-- Transaction input (wire.TxIn): previous outpoint, signature script,
witness stack, sequence number. -/
structure TxIn where
  previousOutPoint : OutPoint
  signatureScript : List Nat
  witness : List (List Nat)
  sequence : Nat
deriving DecidableEq

/-- Transaction output (wire.TxOut): value in satoshi and pkScript bytes. -/
structure TxOut where
  value : Int
  pkScript : List Nat
deriving DecidableEq

/-- Transaction (wire.MsgTx). -/
structure MsgTx where
  version : Int
  txIn : List TxIn
  txOut : List TxOut
  lockTime : Nat
deriving DecidableEq

/-- DefaultTxVersion from the source. -/
def DefaultTxVersion : Int := 2

/-- DefaultSequenceNum from the source (opt-in RBF). -/
def DefaultSequenceNum : Nat := 0xfffffffd

/-- DefaultRevealOutValue from the source. -/
def DefaultRevealOutValue : Int := 546

/-- DefaultMinChangeValue from the source. -/
def DefaultMinChangeValue : Int := 546

/-- MaxStandardTxWeight = 4000000 / 10 from the source. -/
def MaxStandardTxWeight : Int := 400000

/-- WitnessScaleFactor from the source. -/
def WitnessScaleFactor : Nat := 4

/-- wire.VarIntSerializeSize: bytes needed for a Bitcoin varint. -/
def varIntSerializeSize (val : Nat) : Nat :=
  if val < 0xfd then 1
  else if val ≤ 0xffff then 3
  else if val ≤ 0xffffffff then 5
  else 9

/-- wire.TxIn.SerializeSize: outpoint (36) + sequence (4) + varint-prefixed
signature script. -/
def txInSerializeSize (ti : TxIn) : Nat :=
  40 + varIntSerializeSize ti.signatureScript.length + ti.signatureScript.length

/-- wire.TxOut.SerializeSize: value (8) + varint-prefixed pkScript. -/
def txOutSerializeSize (o : TxOut) : Nat :=
  8 + varIntSerializeSize o.pkScript.length + o.pkScript.length

/-- wire.TxWitness.SerializeSize: varint item count plus varint-prefixed items. -/
def witnessSerializeSize (w : List (List Nat)) : Nat :=
  varIntSerializeSize w.length + (w.map (fun item => varIntSerializeSize item.length + item.length)).sum

/-- wire.MsgTx.HasWitness: some input carries witness data. -/
def msgTxHasWitness (tx : MsgTx) : Bool :=
  tx.txIn.any (fun ti => !ti.witness.isEmpty)

/-- wire.MsgTx.baseSize: serialized size without any witness data
(version 4 + varint input count + inputs + varint output count + outputs
+ locktime 4). -/
def msgTxBaseSize (tx : MsgTx) : Nat :=
  8 + varIntSerializeSize tx.txIn.length + varIntSerializeSize tx.txOut.length
    + (tx.txIn.map txInSerializeSize).sum + (tx.txOut.map txOutSerializeSize).sum

/-- wire.MsgTx.SerializeSize: base size, plus marker/flag and per-input
witness serializations when any witness is present. -/
def msgTxSerializeSize (tx : MsgTx) : Nat :=
  if msgTxHasWitness tx then
    msgTxBaseSize tx + 2 + (tx.txIn.map (fun ti => witnessSerializeSize ti.witness)).sum
  else
    msgTxBaseSize tx

/-- wire.MsgTx.SerializeSizeStripped: base size only. -/
def msgTxSerializeSizeStripped (tx : MsgTx) : Nat :=
  msgTxBaseSize tx

/-- GetTransactionWeight from the source: baseSize * (WitnessScaleFactor-1)
+ totalSize. -/
def GetTransactionWeight (tx : MsgTx) : Int :=
  ((msgTxSerializeSizeStripped tx * (WitnessScaleFactor - 1) + msgTxSerializeSize tx : Nat) : Int)

/-- GetTxVirtualSize from the source: (weight + 3) / 4 (ceiling of weight/4). -/
def GetTxVirtualSize (tx : MsgTx) : Int :=
  (GetTransactionWeight tx + ((WitnessScaleFactor : Int) - 1)) / (WitnessScaleFactor : Int)

/-! ### txscript script builder -/

/-- txscript opcodes used by the source. -/
def OP_0 : Nat := 0x00
def OP_DATA_1 : Nat := 0x01
def OP_PUSHDATA1 : Nat := 0x4c
def OP_PUSHDATA2 : Nat := 0x4d
def OP_PUSHDATA4 : Nat := 0x4e
def OP_1NEGATE : Nat := 0x4f
def OP_1 : Nat := 0x51
def OP_IF : Nat := 0x63
def OP_ENDIF : Nat := 0x68
def OP_CHECKSIG : Nat := 0xac
/-- OP_FALSE is an alias of OP_0. -/
def OP_FALSE : Nat := 0x00

/-- txscript.MaxScriptSize. -/
def MaxScriptSize : Nat := 10000
/-- txscript.MaxScriptElementSize. -/
def MaxScriptElementSize : Nat := 520

/-- The byte sequence appended by the unchecked addData of
txscript.ScriptBuilder: minimal canonical push of the data (small-integer
opcodes for 0..16 and -1, OP_DATA_n / OP_PUSHDATA forms otherwise,
little-endian length for the multi-byte length prefixes). -/
def canonPush (data : List Nat) : List Nat :=
  match data with
  | [] => [OP_0]
  | [b] =>
    if b = 0 then [OP_0]
    else if b ≤ 16 then [(OP_1 - 1) + b]
    else if b = 0x81 then [OP_1NEGATE]
    else [OP_DATA_1] ++ data
  | _ =>
    let n := data.length
    if n < OP_PUSHDATA1 then [n] ++ data
    else if n ≤ 0xff then [OP_PUSHDATA1, n] ++ data
    else if n ≤ 0xffff then [OP_PUSHDATA2, n % 256, n / 256] ++ data
    else [OP_PUSHDATA4, n % 256, n / 256 % 256, n / 65536 % 256, n / 16777216 % 256] ++ data

/-- txscript.canonicalDataSize: serialized size of the canonical push. -/
def canonicalDataSize (data : List Nat) : Nat :=
  match data with
  | [] => 1
  | [b] =>
    if b ≤ 16 then 1
    else if b = 0x81 then 1
    else 2
  | _ =>
    let n := data.length
    if n < OP_PUSHDATA1 then 1 + n
    else if n ≤ 0xff then 2 + n
    else if n ≤ 0xffff then 3 + n
    else 5 + n

/-- txscript.ScriptBuilder: accumulated script and a sticky error flag. -/
structure ScriptBuilder where
  script : List Nat
  err : Bool
deriving DecidableEq

/-- txscript.NewScriptBuilder. -/
def ScriptBuilder.new : ScriptBuilder := ⟨[], false⟩

/-- ScriptBuilder.AddOp: appends an opcode unless the script would exceed
MaxScriptSize. -/
def ScriptBuilder.addOp (b : ScriptBuilder) (op : Nat) : ScriptBuilder :=
  if b.err then b
  else if b.script.length + 1 > MaxScriptSize then { b with err := true }
  else { b with script := b.script ++ [op] }

/-- ScriptBuilder.AddData: canonical push with the MaxScriptSize and
MaxScriptElementSize checks. -/
def ScriptBuilder.addData (b : ScriptBuilder) (data : List Nat) : ScriptBuilder :=
  if b.err then b
  else if b.script.length + canonicalDataSize data > MaxScriptSize then { b with err := true }
  else if data.length > MaxScriptElementSize then { b with err := true }
  else { b with script := b.script ++ canonPush data }

/-- ScriptBuilder.AddFullData: canonical push without the size checks. -/
def ScriptBuilder.addFullData (b : ScriptBuilder) (data : List Nat) : ScriptBuilder :=
  if b.err then b
  else { b with script := b.script ++ canonPush data }

/-- ScriptBuilder.Script: the script, or none when an error was recorded. -/
def ScriptBuilder.result (b : ScriptBuilder) : Option (List Nat) :=
  if b.err then none else some b.script

/-! ### Body chunking

The source loop `for i := 0; i < bodySize; i += 520` pushes
body[i : i+520] with AddFullData.  We factor it as: split the body into
chunks of 520 and fold AddFullData over the chunks.  `chunksAux` uses
the body length as fuel so the definition is structurally recursive and
evaluates by kernel reduction. -/

/-- maxChunkSize from the source. -/
def maxChunkSize : Nat := 520

def chunksAux : Nat → List Nat → List (List Nat)
  | 0, _ => []
  | _, [] => []
  | fuel + 1, l => l.take maxChunkSize :: chunksAux fuel (l.drop maxChunkSize)

/-- The contiguous at-most-520-byte chunks of a body, in order. -/
def chunks520 (l : List Nat) : List (List Nat) := chunksAux l.length l

/-- The body-chunk pushing loop of newInscriptionTxCtxData, as a fold of
AddFullData over the chunks. -/
def pushBodyChunks (b : ScriptBuilder) (body : List Nat) : ScriptBuilder :=
  (chunks520 body).foldl ScriptBuilder.addFullData b

/-! ### Request payloads (§ data model of the source) -/

/-- InscriptionData.  ContentType and Body are byte strings; RevealAddr a
bech32/base58 address string. -/
structure InscriptionData where
  contentType : List Nat
  body : List Nat
  revealAddr : String
deriving DecidableEq

/-- PrevOutput: one commit funding source. -/
structure PrevOutput where
  txId : String
  vOut : Nat
  amount : Int
  address : String
  privateKey : String
  publicKey : String
deriving DecidableEq

/-- InscriptionRequest: the top-level input. -/
structure InscriptionRequest where
  commitTxPrevOutputList : List PrevOutput
  commitFeeRate : Int
  revealFeeRate : Int
  inscriptionDataList : List InscriptionData
  revealOutValue : Int
  changeAddress : String
  minChangeValue : Int
deriving DecidableEq

/-! ### Environment of out-of-scope collaborators

The source consumes WIF decoding, address decoding, taproot key
tweaking, schnorr signing, sighash computation, transaction hashing and
hex serialization from btcd.  The spec (§1, §6) declares them external
collaborators; we abstract each as an executable function.  Private
keys are identified by an abstract Nat handle. -/

structure Env where
  /-- btcutil.DecodeWIF, returning the decoded private key handle. -/
  wifDecode : String → Option Nat
  /-- schnorr.SerializePubKey of the key's public key (32-byte x-only). -/
  xonlyPub : Nat → List Nat
  /-- BIP-341 tapleaf hash (leaf version 0xc0) of a leaf script. -/
  tapHash : List Nat → List Nat
  /-- Whether txscript.ComputeTaprootOutputKey(pub key, root hash) has odd y. -/
  outputKeyOdd : Nat → List Nat → Bool
  /-- x-only serialization of the tweaked taproot output key. -/
  outputKeyX : Nat → List Nat → List Nat
  /-- btcutil.NewAddressTaproot + EncodeAddress for a 32-byte program. -/
  taprootAddr : List Nat → String
  /-- AddrToPkScript: address string to scriptPubKey bytes. -/
  addrToPkScript : String → Option (List Nat)
  /-- chainhash.NewHashFromStr: reversed-hex txid string to 32-byte hash. -/
  parseTxId : String → Option (List Nat)
  /-- Sign(tx, keys, fetcher): produces the signed inputs (Go mutates only
  TxIn), or none on failure. -/
  signAll : MsgTx → Option (List TxIn)
  /-- MsgTx.TxHash: the 32-byte transaction hash. -/
  txHash : MsgTx → List Nat
  /-- GetTxHex: hex of the serialized transaction. -/
  txHex : MsgTx → String
  /-- MsgTx.Deserialize from hex. -/
  txFromHex : String → Option MsgTx
  /-- txscript.CalcTapscriptSignaturehash: hash type, transaction, input
  index, leaf script ↦ sighash digest. -/
  tapscriptSigHash : Nat → MsgTx → Nat → List Nat → List Nat
  /-- schnorr.Sign serialized: key, digest ↦ 64-byte signature. -/
  schnorrSign : Nat → List Nat → List Nat
  /-- calcSigHash: per-input sighash hex digests plus the seeded inputs
  (the Go function stores pubkeys into scriptSig/witness slots). -/
  calcSigHash : MsgTx → Option (List String × List TxIn)
  /-- ecdsa.NewSignature(r, s).Serialize(): DER encoding of the two
  mod-n scalars. -/
  derSig : Nat → Nat → List Nat

/-- txscript.SigHashDefault. -/
def SigHashDefault : Nat := 0x00
/-- txscript.SigHashAll. -/
def SigHashAll : Nat := 0x01

/-- The "ord" protocol tag pushed into every envelope. -/
def ordTagBytes : List Nat := [0x6f, 0x72, 0x64]

/-- Per-inscription derived state (inscriptionTxCtxData). -/
structure CtxData where
  privateKey : Nat
  inscriptionScript : List Nat
  commitTxAddress : String
  commitTxAddressPkScript : List Nat
  controlBlockWitness : List Nat
  revealTxPrevOutput : Option TxOut
deriving DecidableEq

/-- Lift an Option to Except with a message (Go error propagation; a Go
index-out-of-range or nil-dereference panic is modelled as an error). -/
def ofOption {α : Type} (o : Option α) (msg : String) : Except String α :=
  match o with
  | none => .error msg
  | some a => .ok a

/-- newInscriptionTxCtxData from the source: decodes the FIRST prev
output's WIF key, assembles the envelope leaf script, derives the single
leaf taproot commitment, address, pkScript and control block. -/
def newInscriptionTxCtxData (env : Env) (req : InscriptionRequest) (i : Nat) :
    Except String CtxData := do
  let p0 ← ofOption req.commitTxPrevOutputList.head? "index out of range"
  let k ← ofOption (env.wifDecode p0.privateKey) "wif decode error"
  let insData ← ofOption req.inscriptionDataList[i]? "index out of range"
  let b := ScriptBuilder.new
    |>.addData (env.xonlyPub k)
    |>.addOp OP_CHECKSIG
    |>.addOp OP_FALSE
    |>.addOp OP_IF
    |>.addData ordTagBytes
    |>.addOp OP_DATA_1
    |>.addOp OP_DATA_1
    |>.addData insData.contentType
    |>.addOp OP_0
  let b := pushBodyChunks b insData.body
  let script0 ← ofOption b.result "script build error"
  let inscriptionScript := script0 ++ [OP_ENDIF]
  -- TapscriptProof with RootNode = the single leaf over inscriptionScript;
  -- its control block is leaf version 0xc0 with the output-key parity bit,
  -- the x-only internal key, and an empty inclusion proof.
  let rootHash := env.tapHash inscriptionScript
  let controlBlockWitness :=
    (0xc0 + (if env.outputKeyOdd k rootHash then 1 else 0)) :: env.xonlyPub k
  let outX := env.outputKeyX k rootHash
  -- btcutil.NewAddressTaproot rejects witness programs that are not 32 bytes.
  if outX.length ≠ 32 then
    throw "witness program must be 32 bytes for v1"
  let commitTxAddress := env.taprootAddr outX
  -- txscript.PayToAddrScript for a taproot address: OP_1 plus push of program.
  let pkb := ScriptBuilder.new |>.addOp OP_1 |>.addData outX
  let commitTxAddressPkScript ← ofOption pkb.result "script build error"
  pure {
    privateKey := k
    inscriptionScript := inscriptionScript
    commitTxAddress := commitTxAddress
    commitTxAddressPkScript := commitTxAddressPkScript
    controlBlockWitness := controlBlockWitness
    revealTxPrevOutput := none
  }

/-! ### Reveal pre-sizer (buildEmptyRevealTx) -/

/-- The 32-byte all-zero placeholder hash of a fresh wire.OutPoint. -/
def zeroHash32 : List Nat := List.replicate 32 0

/-- The skeletal one-input one-output reveal transaction built by
addTxInTxOutIntoRevealTx: input (zero hash, index), empty scriptSig, no
witness, RBF sequence; output paying revealOutValue to the destination
pkScript. -/
def skeletalRevealTx (idx : Nat) (revealOutValue : Int) (pkScript : List Nat) : MsgTx :=
  { version := DefaultTxVersion
    txIn := [{ previousOutPoint := { hash := zeroHash32, index := idx }
               signatureScript := []
               witness := []
               sequence := DefaultSequenceNum }]
    txOut := [{ value := revealOutValue, pkScript := pkScript }]
    lockTime := 0 }

/-- The dummy witness used for pre-sizing: 64 zero bytes, the leaf
script, 33 zero bytes. -/
def dummyWitness (script : List Nat) : List (List Nat) :=
  [List.replicate 64 0, script, List.replicate 33 0]

/-- Discounted witness fee of buildEmptyRevealTx:
((witness serialize size + 2 + 3) / 4) * revealFeeRate, with truncated
division. -/
def revealWitnessFee (script : List Nat) (revealFeeRate : Int) : Int :=
  (((witnessSerializeSize (dummyWitness script) + 2 + 3) / 4 : Nat) : Int) * revealFeeRate

/-- Result of buildEmptyRevealTx: the builder fields it assigns plus the
updated context list and the total required funding. -/
structure RevealBuild where
  revealTx : List MsgTx
  mustRevealTxFees : List Int
  commitAddrs : List String
  ctxList : List CtxData
  totalPrevOutputValue : Int
deriving DecidableEq

/-- One iteration of the buildEmptyRevealTx loop at global index idx. -/
def revealStep (env : Env) (ctx : CtxData) (dest : String)
    (idx : Nat) (revealOutValue revealFeeRate : Int) :
    Except String (MsgTx × Int × String × CtxData) := do
  let pkScript ← ofOption (env.addrToPkScript dest) "address to pkscript error"
  let tx := skeletalRevealTx idx revealOutValue pkScript
  let baseFee : Int := ((msgTxSerializeSize tx : Nat) : Int) * revealFeeRate
  let fee := revealWitnessFee ctx.inscriptionScript revealFeeRate
  let prevOutputValue := revealOutValue + baseFee + fee
  let po : TxOut := { value := prevOutputValue, pkScript := ctx.commitTxAddressPkScript }
  let ctx' := { ctx with revealTxPrevOutput := some po }
  pure (tx, baseFee + fee, ctx.commitTxAddress, ctx')

/-- The buildEmptyRevealTx loop over the context/destination lists,
starting at global index idx. -/
def buildEmptyRevealTxAux (env : Env) (idx : Nat) :
    List CtxData → List String → Int → Int → Except String RevealBuild
  | [], _, _, _ => .ok ⟨[], [], [], [], 0⟩
  | _ :: _, [], _, _ => .error "index out of range"
  | ctx :: ctxs, dest :: dests, rov, rate => do
    let (tx, mustFee, addr, ctx') ← revealStep env ctx dest idx rov rate
    let rest ← buildEmptyRevealTxAux env (idx + 1) ctxs dests rov rate
    let required := rov + mustFee
    pure ⟨tx :: rest.revealTx, mustFee :: rest.mustRevealTxFees,
          addr :: rest.commitAddrs, ctx' :: rest.ctxList,
          required + rest.totalPrevOutputValue⟩

/-- buildEmptyRevealTx from the source. -/
def buildEmptyRevealTx (env : Env) (ctxs : List CtxData) (dests : List String)
    (revealOutValue revealFeeRate : Int) : Except String RevealBuild :=
  buildEmptyRevealTxAux env 0 ctxs dests revealOutValue revealFeeRate

/-! ### Commit builder (buildCommitTx) -/

/-- Prevout lookup table (txscript.MultiPrevOutFetcher): newest entry
first so that AddPrevOut overwrites. -/
def Fetcher : Type := List (OutPoint × TxOut)

instance : DecidableEq Fetcher := by
  unfold Fetcher
  infer_instance

/-- MultiPrevOutFetcher.AddPrevOut. -/
def addPrevOut (f : Fetcher) (o : OutPoint) (t : TxOut) : Fetcher := (o, t) :: f

/-- MultiPrevOutFetcher.FetchPrevOutput (none models the Go nil return). -/
def fetchPrevOutput (f : Fetcher) (o : OutPoint) : Option TxOut :=
  (List.find? (fun e => e.fst = o) f).map Prod.snd

/-- Error result of buildCommitTx: the insufficient-balance case records
the with-change fee estimate into builder.MustCommitTxFee. -/
inductive CommitBuildErr where
  | insufficientBalance (mustCommitTxFee : Int)
  | other (msg : String)
deriving DecidableEq

/-- The input-collection loop of buildCommitTx: parses each funding
txid, registers the prevout (later additions overwrite earlier ones),
creates the input, sums the amounts. -/
def collectCommitInputsAux (env : Env) :
    Fetcher → List PrevOutput → Except String (List TxIn × Fetcher × Int)
  | f, [] => .ok ([], f, 0)
  | f, p :: ps => do
    let h ← ofOption (env.parseTxId p.txId) "invalid txid"
    let pk ← ofOption (env.addrToPkScript p.address) "address to pkscript error"
    let op : OutPoint := { hash := h, index := p.vOut }
    let ti : TxIn := { previousOutPoint := op, signatureScript := [],
                       witness := [], sequence := DefaultSequenceNum }
    let (ins, f', total) ←
      collectCommitInputsAux env (addPrevOut f op { value := p.amount, pkScript := pk }) ps
    pure (ti :: ins, f', p.amount + total)

def collectCommitInputs (env : Env) (ps : List PrevOutput) :
    Except String (List TxIn × Fetcher × Int) :=
  collectCommitInputsAux env [] ps

/-- Sets the value of the last output (tx.TxOut[len-1].Value = v). -/
def setLastValue : List TxOut → Int → List TxOut
  | [], _ => []
  | [o], v => [{ o with value := v }]
  | o :: o' :: rest, v => o :: setLastValue (o' :: rest) v

/-- buildCommitTx from the source.  The reveal prevouts are the
RevealTxPrevOutput fields of the context list (a none models the Go nil
pointer).  The dry-sign estimate shares the input slice with the real
transaction, so the returned transaction carries the estimate
signatures (they are overwritten later by signCommitTx). -/
def buildCommitTx (env : Env) (commitTxPrevOutputList : List PrevOutput)
    (changeAddress : String) (totalRevealPrevOutputValue commitFeeRate minChangeValue : Int)
    (revealOuts : List (Option TxOut)) : Except CommitBuildErr (MsgTx × Fetcher) := do
  let changePkScript ← match env.addrToPkScript changeAddress with
    | none => throw (.other "address to pkscript error")
    | some s => pure s
  let (ins, fetcher, totalSenderAmount) ← match collectCommitInputs env commitTxPrevOutputList with
    | .error e => throw (.other e)
    | .ok r => pure r
  let insOuts ← match revealOuts.mapM id with
    | none => throw (.other "nil reveal prevout")
    | some l => pure l
  let outs := insOuts ++ [{ value := 0, pkScript := changePkScript : TxOut }]
  let skel : MsgTx := { version := DefaultTxVersion, txIn := ins, txOut := outs, lockTime := 0 }
  let estIns ← match env.signAll skel with
    | none => throw (.other "sign error")
    | some l => pure l
  let est : MsgTx := { skel with txIn := estIns }
  let fee : Int := GetTxVirtualSize est * commitFeeRate
  let changeAmount := totalSenderAmount - totalRevealPrevOutputValue - fee
  if minChangeValue ≤ changeAmount then
    pure ({ est with txOut := setLastValue est.txOut changeAmount }, fetcher)
  else
    let tx' : MsgTx := { est with txOut := est.txOut.dropLast }
    if changeAmount < 0 then
      let est' : MsgTx := { est with txOut := est.txOut.dropLast }
      let feeWithoutChange : Int := GetTxVirtualSize est' * commitFeeRate
      if totalSenderAmount - totalRevealPrevOutputValue - feeWithoutChange < 0 then
        throw (.insufficientBalance fee)
      else
        pure (tx', fetcher)
    else
      pure (tx', fetcher)

/-! ### Reveal completer (completeRevealTx) -/

/-- The weight-check loop at the end of completeRevealTx, reporting the
first offending index and weight. -/
def weightErrMsg (i : Nat) (w : Int) : String :=
  "reveal(index " ++ toString i ++ ") transaction weight greater than "
    ++ toString MaxStandardTxWeight ++ " (MAX_STANDARD_TX_WEIGHT): " ++ toString w

def checkWeightsAux : Nat → List MsgTx → Except String Unit
  | _, [] => .ok ()
  | i, tx :: rest =>
    if MaxStandardTxWeight < GetTransactionWeight tx then
      .error (weightErrMsg i (GetTransactionWeight tx))
    else
      checkWeightsAux (i + 1) rest

def checkWeights (txs : List MsgTx) : Except String Unit := checkWeightsAux 0 txs

/-- Rewrites the first input's previous-outpoint hash
(tx.TxIn[0].PreviousOutPoint.Hash = h; a missing input models the Go
index panic as an error). -/
def setPrevHash (h : List Nat) (tx : MsgTx) : Except String MsgTx :=
  match tx.txIn with
  | [] => .error "index out of range"
  | ti :: rest =>
    .ok { tx with txIn := { ti with previousOutPoint := { ti.previousOutPoint with hash := h } } :: rest }

/-- Populates the first input's witness with the tapscript sighash
signature: [64-byte schnorr signature, leaf script, control block]. -/
def setRevealWitness (env : Env) (ctx : CtxData) (tx : MsgTx) : Except String MsgTx :=
  match tx.txIn with
  | [] => .error "index out of range"
  | ti :: rest =>
    let digest := env.tapscriptSigHash SigHashDefault tx 0 ctx.inscriptionScript
    let sig := env.schnorrSign ctx.privateKey digest
    .ok { tx with txIn :=
      { ti with witness := [sig, ctx.inscriptionScript, ctx.controlBlockWitness] } :: rest }

/-- Applies f pairwise along the context list; transactions beyond the
context list are untouched, a missing transaction models the Go index
panic. -/
def zipModify (f : CtxData → MsgTx → Except String MsgTx) :
    List CtxData → List MsgTx → Except String (List MsgTx)
  | [], ts => .ok ts
  | _ :: _, [] => .error "index out of range"
  | c :: cs, t :: ts => do
    let t' ← f c t
    let ts' ← zipModify f cs ts
    pure (t' :: ts')

/-- The fetcher-registration half of the first completeRevealTx loop:
(commit hash, i) ↦ ctx.RevealTxPrevOutput. -/
def mkRevealFetcher (h : List Nat) : Nat → List CtxData → Except String Fetcher
  | _, [] => .ok []
  | i, ctx :: ctxs => do
    let po ← ofOption ctx.revealTxPrevOutput "nil reveal prevout"
    let rest ← mkRevealFetcher h (i + 1) ctxs
    pure (addPrevOut rest { hash := h, index := i } po)

/-- completeRevealTx from the source: rewrite every reveal input's
prevout hash to the commit txid, sign each reveal's tapscript path with
SIGHASH_DEFAULT at input 0, then enforce the weight limit. -/
def completeRevealTx (env : Env) (commitTx : MsgTx) (ctxs : List CtxData)
    (revealTxs : List MsgTx) : Except String (List MsgTx × Fetcher) := do
  let h := env.txHash commitTx
  let fetcher ← mkRevealFetcher h 0 ctxs
  let txs1 ← zipModify (fun _ tx => setPrevHash h tx) ctxs revealTxs
  let txs2 ← zipModify (setRevealWitness env) ctxs txs1
  checkWeights txs2
  pure (txs2, fetcher)

/-! ### The monolithic pipeline (NewInscriptionTool / initTool / Inscribe) -/

/-- InscriptionBuilder state surfaced by the pipeline. -/
structure Builder where
  commitTx : Option MsgTx := none
  revealTx : List MsgTx := []
  mustCommitTxFee : Int := 0
  mustRevealTxFees : List Int := []
  commitAddrs : List String := []
  ctxList : List CtxData := []
  commitFetcher : Fetcher := []
  revealFetcher : Fetcher := []
deriving DecidableEq

/-- The empty builder (Go zero values). -/
def Builder.empty : Builder := {}

/-- The context-construction loop of initTool. -/
def mkCtxList (env : Env) (req : InscriptionRequest) : Nat → Nat → Except String (List CtxData)
  | _, 0 => .ok []
  | i, n + 1 => do
    let c ← newInscriptionTxCtxData env req i
    let rest ← mkCtxList env req (i + 1) n
    pure (c :: rest)

/-- Defaulting of RevealOutValue in initTool (and in the MPC variant). -/
def effRevealOutValue (req : InscriptionRequest) : Int :=
  if 0 < req.revealOutValue then req.revealOutValue else DefaultRevealOutValue

/-- Defaulting of MinChangeValue in initTool (and in the MPC variant). -/
def effMinChangeValue (req : InscriptionRequest) : Int :=
  if 0 < req.minChangeValue then req.minChangeValue else DefaultMinChangeValue

/-- initTool from the source: contexts, reveal pre-sizing, commit build,
commit signing, reveal completion.  Returns the builder state reached
so far together with the error, mirroring the Go (tool, err) pair. -/
def initToolRun (env : Env) (req : InscriptionRequest) : Builder × Option String :=
  let rov := effRevealOutValue req
  let mcv := effMinChangeValue req
  match mkCtxList env req 0 req.inscriptionDataList.length with
  | .error e => (Builder.empty, some e)
  | .ok ctxs =>
  let dests := req.inscriptionDataList.map (·.revealAddr)
  match buildEmptyRevealTx env ctxs dests rov req.revealFeeRate with
  | .error e => ({ Builder.empty with ctxList := ctxs }, some e)
  | .ok rb =>
  let b1 : Builder := { Builder.empty with
    revealTx := rb.revealTx, mustRevealTxFees := rb.mustRevealTxFees,
    commitAddrs := rb.commitAddrs, ctxList := rb.ctxList }
  match buildCommitTx env req.commitTxPrevOutputList req.changeAddress
      rb.totalPrevOutputValue req.commitFeeRate mcv
      (rb.ctxList.map (·.revealTxPrevOutput)) with
  | .error (.insufficientBalance fee) =>
    ({ b1 with mustCommitTxFee := fee }, some "insufficient balance")
  | .error (.other e) => (b1, some e)
  | .ok (tx, fetcher) =>
  let b2 : Builder := { b1 with commitTx := some tx, commitFetcher := fetcher }
  -- signCommitTx: a failure is reported as the fixed message.
  match env.signAll tx with
  | none => (b2, some "sign commit tx error")
  | some ins =>
  let signed : MsgTx := { tx with txIn := ins }
  let b3 : Builder := { b2 with commitTx := some signed }
  match completeRevealTx env signed rb.ctxList rb.revealTx with
  | .error e => (b3, some e)
  | .ok (txs, rf) => ({ b3 with revealTx := txs, revealFetcher := rf }, none)

/-- The WIF-decoding loop of NewInscriptionTool. -/
def decodeAllWifs (env : Env) : List PrevOutput → Option (List Nat)
  | [] => some []
  | p :: ps => do
    let k ← env.wifDecode p.privateKey
    let ks ← decodeAllWifs env ps
    pure (k :: ks)

/-- NewInscriptionTool from the source: decode every funding key, then
run initTool. -/
def newInscriptionToolRun (env : Env) (req : InscriptionRequest) : Builder × Option String :=
  match decodeAllWifs env req.commitTxPrevOutputList with
  | none => (Builder.empty, some "wif decode error")
  | some _ => initToolRun env req

/-- InscribeTxs: the response payload of Inscribe. -/
structure InscribeTxs where
  commitTx : String
  revealTxs : List String
  commitTxFee : Int
  revealTxFees : List Int
  commitAddrs : List String
deriving DecidableEq

/-- CalculateFee from the source: commit fee = fetched input values
minus output values; reveal fees accumulated per input with the matching
output index (a missing fetcher entry, a Go nil dereference, contributes
zero here and never occurs in the pipeline). -/
def calculateFee (b : Builder) : Int × List Int :=
  let c := b.commitTx.getD { version := 0, txIn := [], txOut := [], lockTime := 0 }
  let commitTxFee :=
    (c.txIn.map (fun ti => ((fetchPrevOutput b.commitFetcher ti.previousOutPoint).map (·.value)).getD 0)).sum
      - (c.txOut.map (·.value)).sum
  let revealTxFees := b.revealTx.flatMap (fun tx =>
    (List.zip tx.txIn tx.txOut).map (fun pr =>
      ((fetchPrevOutput b.revealFetcher pr.fst.previousOutPoint).map (·.value)).getD 0
        - pr.snd.value))
  (commitTxFee, revealTxFees)

/-- Inscribe from the source: the insufficient-balance error becomes a
normal response with empty commitTx / revealTxs and the recorded fees;
any other error is surfaced as an error. -/
def Inscribe (env : Env) (req : InscriptionRequest) : Except String InscribeTxs :=
  let (b, e) := newInscriptionToolRun env req
  match e with
  | some msg =>
    if msg = "insufficient balance" then
      .ok { commitTx := "", revealTxs := [], commitTxFee := b.mustCommitTxFee,
            revealTxFees := b.mustRevealTxFees, commitAddrs := b.commitAddrs }
    else
      .error msg
  | none =>
    match b.commitTx with
    | none => .error "no commit tx"
    | some ctx =>
      let (commitTxFee, revealTxFees) := calculateFee b
      .ok { commitTx := env.txHex ctx, revealTxs := b.revealTx.map env.txHex,
            commitTxFee := commitTxFee, revealTxFees := revealTxFees,
            commitAddrs := b.commitAddrs }

/-! ### MPC variant (InscribeForMPCUnsigned / InscribeForMPCSigned) -/

/-- InscribeForMPCRes.  sigHashList is none when null.  The commitTxMsg
and revealTxList fields are the structured transactions whose hex
serializations fill commitTx and revealTxs (serialization is an
abstract collaborator, so the structured values are carried alongside). -/
structure InscribeForMPCRes where
  sigHashList : Option (List String)
  commitTx : String
  revealTxs : List String
  commitTxFee : Int
  revealTxFees : List Int
  commitAddrs : List String
  commitTxMsg : MsgTx
  revealTxList : List MsgTx
deriving DecidableEq

/-- Sets the first input's witness (a missing input models the Go index
panic). -/
def setWitness0 (tx : MsgTx) (w : List (List Nat)) : Except String MsgTx :=
  match tx.txIn with
  | [] => .error "index out of range"
  | ti :: rest => .ok { tx with txIn := { ti with witness := w } :: rest }

/-- The per-inscription reveal value required by InscribeForMPCUnsigned:
(base serialize size + (dummy-witness serialize size + 2 + 3) / 4)
* revealFeeRate, added to the reveal output value. -/
def mpcRevealStep (env : Env) (req : InscriptionRequest) (i : Nat) (ctx : CtxData) :
    Except String (MsgTx × Int × CtxData × TxOut) := do
  let insData ← ofOption req.inscriptionDataList[i]? "index out of range"
  let pkScript ← ofOption (env.addrToPkScript insData.revealAddr) "address to pkscript error"
  let rov := effRevealOutValue req
  let tx := skeletalRevealTx i rov pkScript
  let revealFee : Int :=
    ((msgTxSerializeSize tx
        + (witnessSerializeSize (dummyWitness ctx.inscriptionScript) + 2 + 3) / 4 : Nat) : Int)
      * req.revealFeeRate
  let revealInValue := rov + revealFee
  let po : TxOut := { value := revealInValue, pkScript := ctx.commitTxAddressPkScript }
  let ctx' := { ctx with revealTxPrevOutput := some po }
  pure (tx, revealInValue, ctx', po)

/-- The reveal-construction loop of InscribeForMPCUnsigned. -/
def mpcRevealLoop (env : Env) (req : InscriptionRequest) :
    Nat → List CtxData → Except String (List MsgTx × List CtxData × List TxOut × Int)
  | _, [] => .ok ([], [], [], 0)
  | i, ctx :: ctxs => do
    let (tx, v, ctx', po) ← mpcRevealStep env req i ctx
    let (txs, ctxs', pos, total) ← mpcRevealLoop env req (i + 1) ctxs
    pure (tx :: txs, ctx' :: ctxs', po :: pos, v + total)

/-- The per-input fee accumulation of the MPC reveal loop (one growing
accumulator, appended after every input). -/
def feeAccumLoop (f : Fetcher) : Int → List TxIn → List TxOut → List Int
  | _, [], _ => []
  | _, _ :: _, [] => []
  | acc, ti :: tis, o :: os =>
    let acc' := acc + (((fetchPrevOutput f ti.previousOutPoint).map (·.value)).getD 0) - o.value
    acc' :: feeAccumLoop f acc' tis os

/-- The reveal-signing loop of InscribeForMPCUnsigned: rewrite the
prevout hash to the commit hash, tapscript-sign with SIGHASH_DEFAULT at
input 0 using the key decoded from the first funding prevout, set the
witness, and account the reveal fees. -/
def mpcSignLoop (env : Env) (k : Nat) (h : List Nat) :
    Nat → List CtxData → List MsgTx → Except String (List MsgTx × List Int × List String)
  | _, [], ts => .ok (ts, [], [])
  | _, _ :: _, [] => .error "index out of range"
  | i, ctx :: ctxs, tx :: txs => do
    let tx1 ← setPrevHash h tx
    let po ← ofOption ctx.revealTxPrevOutput "nil reveal prevout"
    let digest := env.tapscriptSigHash SigHashDefault tx1 0 ctx.inscriptionScript
    let sig := env.schnorrSign k digest
    let tx2 ← setWitness0 tx1 [sig, ctx.inscriptionScript, ctx.controlBlockWitness]
    let f : Fetcher := addPrevOut [] { hash := h, index := i } po
    let fees := feeAccumLoop f 0 tx2.txIn tx2.txOut
    let (txs', fees', addrs') ← mpcSignLoop env k h (i + 1) ctxs txs
    pure (tx2 :: txs', fees ++ fees', ctx.commitTxAddress :: addrs')

/-- InscribeForMPCUnsigned from the source.  unsignedCommitHash is
accepted but unused, as in the Go signature. -/
def InscribeForMPCUnsigned (env : Env) (req : InscriptionRequest)
    (unsignedCommitHash signedCommitTxHash : Option (List Nat)) :
    Except String InscribeForMPCRes := do
  let p0 ← ofOption req.commitTxPrevOutputList.head? "index out of range"
  let randPrvKey ← ofOption (env.wifDecode p0.privateKey) "wif decode error"
  -- buildInscriptionScriptCtxList
  let ctxs ← mkCtxList env req 0 req.inscriptionDataList.length
  -- build reveal tx list
  let (revealTxs, ctxs', commitTxOutList, totalRevealInValue) ← mpcRevealLoop env req 0 ctxs
  -- build commit tx
  let (ins, prevOutFetcher, totalCommitInValue) ←
    match collectCommitInputs env req.commitTxPrevOutputList with
    | .error e => throw e
    | .ok r => pure r
  let changePkScript ← ofOption (env.addrToPkScript req.changeAddress) "address to pkscript error"
  let outs := commitTxOutList ++ [{ value := 0, pkScript := changePkScript : TxOut }]
  let commitTx : MsgTx := { version := DefaultTxVersion, txIn := ins, txOut := outs, lockTime := 0 }
  -- estimateTx := commitTx.Copy(), dry-signed with a throwaway key
  let estIns ← ofOption (env.signAll commitTx) "sign error"
  let estimateTx : MsgTx := { commitTx with txIn := estIns }
  let commitFee := GetTxVirtualSize estimateTx * req.commitFeeRate
  let changeValue := totalCommitInValue - totalRevealInValue - commitFee
  let mcv := effMinChangeValue req
  let commitTx2 ←
    if mcv ≤ changeValue then
      pure { commitTx with txOut := setLastValue commitTx.txOut changeValue }
    else
      let c' : MsgTx := { commitTx with txOut := commitTx.txOut.dropLast }
      let est' : MsgTx := { estimateTx with txOut := estimateTx.txOut.dropLast }
      let feeWithoutChange := GetTxVirtualSize est' * req.commitFeeRate
      if totalCommitInValue - totalRevealInValue - feeWithoutChange < 0 then
        throw "insufficient balance"
      else
        pure c'
  let (sigHashList, seededIns) ← ofOption (env.calcSigHash commitTx2) "calc sighash error"
  let commitTx3 : MsgTx := { commitTx2 with txIn := seededIns }
  let commitTxHash :=
    match signedCommitTxHash with
    | some h => h
    | none => env.txHash commitTx3
  let (signedReveals, revealTxFees, commitAddrs) ←
    mpcSignLoop env randPrvKey commitTxHash 0 ctxs' revealTxs
  let commitTxFee :=
    (commitTx3.txIn.map (fun ti =>
        ((fetchPrevOutput prevOutFetcher ti.previousOutPoint).map (·.value)).getD 0)).sum
      - (commitTx3.txOut.map (·.value)).sum
  pure {
    sigHashList := some sigHashList
    commitTx := env.txHex commitTx3
    revealTxs := signedReveals.map env.txHex
    commitTxFee := commitTxFee
    revealTxFees := revealTxFees
    commitAddrs := commitAddrs
    commitTxMsg := commitTx3
    revealTxList := signedReveals
  }

/-! ### MPC signature splicing (InscribeForMPCSigned) -/

/-- Hex digit value. -/
def hexDigit (c : Char) : Option Nat :=
  if '0' ≤ c ∧ c ≤ '9' then some (c.toNat - 48)
  else if 'a' ≤ c ∧ c ≤ 'f' then some (c.toNat - 87)
  else if 'A' ≤ c ∧ c ≤ 'F' then some (c.toNat - 55)
  else none

/-- hex.DecodeString over a character list. -/
def hexDecode : List Char → Option (List Nat)
  | [] => some []
  | [_] => none
  | c1 :: c2 :: rest => do
    let hi ← hexDigit c1
    let lo ← hexDigit c2
    let r ← hexDecode rest
    pure ((16 * hi + lo) :: r)

/-- Big-endian byte-list value. -/
def bytesBE (l : List Nat) : Nat := l.foldl (fun a b => a * 256 + b) 0

/-- The secp256k1 group order (ModNScalar.SetByteSlice reduces mod this). -/
def secpN : Nat := 0xFFFFFFFFFFFFFFFFFFFFFFFFFFFFFFFEBAAEDCE6AF48A03BBFD25E8CD0364141

/-- One signature of InscribeForMPCSigned: the first 64 hex characters
are r, the next 64 are s, each reduced mod the group order,
DER-encoded, with the SIGHASH_ALL byte appended. -/
def parseMpcSignature (env : Env) (s : String) : Except String (List Nat) := do
  if s.length < 128 then
    throw "index out of range"
  let rBytes ← ofOption (hexDecode (s.toList.take 64)) "invalid hex"
  let sBytes ← ofOption (hexDecode ((s.toList.drop 64).take 64)) "invalid hex"
  let r := bytesBE rBytes % secpN
  let s' := bytesBE sBytes % secpN
  pure (env.derSig r s' ++ [SigHashAll])

/-- The signature-injection loop of InscribeForMPCSigned: legacy inputs
(empty witness) get scriptSig = push(sig) push(pubkey) with the pubkey
read from the seeded scriptSig; segwit inputs get witness =
[sig, pubkey] with the pubkey read from the seeded witness head. -/
def spliceSigs (env : Env) : List TxIn → List String → Except String (List TxIn)
  | [], _ => .ok []
  | _ :: _, [] => .error "index out of range"
  | ti :: tis, sg :: sgs =>
    parseMpcSignature env sg >>= fun sig =>
    (match ti.witness with
      | [] =>
        match ((ScriptBuilder.new.addData sig).addData ti.signatureScript).result with
        | none => .error "script build error"
        | some sc => .ok { ti with signatureScript := sc }
      | w0 :: _ => .ok { ti with witness := [sig, w0] }) >>= fun ti' =>
    spliceSigs env tis sgs >>= fun rest =>
    .ok (ti' :: rest)

/-- InscribeForMPCSigned from the source: deserialize the unsigned
commit, splice the external signatures, re-run InscribeForMPCUnsigned
with the signed commit txid, null the sighash list and substitute the
signed commit hex. -/
def InscribeForMPCSigned (env : Env) (req : InscriptionRequest)
    (commitTx : String) (signatures : List String) : Except String InscribeForMPCRes := do
  let tx ← ofOption (env.txFromHex commitTx) "deserialize error"
  let unsignedCommitTxHash := env.txHash tx
  let ins' ← spliceSigs env tx.txIn signatures
  let signedTx : MsgTx := { tx with txIn := ins' }
  let signedCommitTxHash := env.txHash signedTx
  let signedCommitTxHex := env.txHex signedTx
  let res ← InscribeForMPCUnsigned env req (some unsignedCommitTxHash) (some signedCommitTxHash)
  pure { res with sigHashList := none, commitTx := signedCommitTxHex, commitTxMsg := signedTx }

/-! ### A concrete test environment

Used to instantiate the theorems at closed inputs.  Every collaborator
is given a simple executable stand-in of the right shape (32-byte
hashes and keys, 64-byte signatures), so the pipeline runs end to end
by evaluation. -/

/-- A fixed deserialized commit transaction for the txFromHex stand-in:
one segwit-seeded input (witness = [pubkey]) and one legacy-seeded
input (witness empty, scriptSig = pubkey). -/
def testSeededCommit : MsgTx :=
  { version := 2
    txIn := [
      { previousOutPoint := { hash := List.replicate 32 6, index := 0 }
        signatureScript := []
        witness := [List.replicate 33 2]
        sequence := DefaultSequenceNum },
      { previousOutPoint := { hash := List.replicate 32 6, index := 1 }
        signatureScript := List.replicate 33 2
        witness := []
        sequence := DefaultSequenceNum }]
    txOut := [{ value := 600, pkScript := 0x51 :: 0x20 :: List.replicate 32 4 }]
    lockTime := 0 }

def testEnv : Env where
  wifDecode := fun _ => some 1
  xonlyPub := fun k => List.replicate 31 0 ++ [k % 256]
  tapHash := fun s => List.replicate 31 0 ++ [s.length % 256]
  outputKeyOdd := fun _ _ => false
  outputKeyX := fun _ _ => List.replicate 32 4
  taprootAddr := fun _ => "tb1ptest"
  addrToPkScript := fun a => if a = "bad" then none else some (0x51 :: 0x20 :: List.replicate 32 5)
  parseTxId := fun _ => some (List.replicate 32 6)
  signAll := fun tx =>
    some (tx.txIn.map (fun ti => { ti with witness := [List.replicate 64 7] }))
  txHash := fun tx => List.replicate 31 3 ++ [msgTxSerializeSize tx % 256]
  txHex := fun tx => "hex" ++ toString (msgTxSerializeSize tx)
  txFromHex := fun _ => some testSeededCommit
  tapscriptSigHash := fun _ _ _ _ => List.replicate 32 9
  schnorrSign := fun _ _ => List.replicate 64 10
  calcSigHash := fun tx => some (tx.txIn.map (fun _ => "sh"), tx.txIn)
  derSig := fun r s => [0x30, 0x06, 0x02, 0x01, r % 2, 0x02, 0x01, s % 2]

def testPrevOut : PrevOutput :=
  { txId := "aa", vOut := 0, amount := 100000, address := "addr1",
    privateKey := "wif1", publicKey := "02ab" }

def testInscription : InscriptionData :=
  { contentType := [0x74, 0x65, 0x78, 0x74], body := [0x48, 0x69], revealAddr := "addr2" }

def testRequest : InscriptionRequest :=
  { commitTxPrevOutputList := [testPrevOut], commitFeeRate := 1, revealFeeRate := 1,
    inscriptionDataList := [testInscription], revealOutValue := 546,
    changeAddress := "addr3", minChangeValue := 546 }

/-- The same request with funding too small to cover the fees. -/
def poorRequest : InscriptionRequest :=
  { testRequest with commitTxPrevOutputList := [{ testPrevOut with amount := 10 }] }

/-! ## Lemmas about the script builder and body chunking -/

theorem canonPush_eq_cons {d : List Nat} (h2 : 2 ≤ d.length) (h76 : d.length < 76) :
    canonPush d = d.length :: d := by
  match d with
  | [] => simp at h2
  | [b] => simp at h2
  | x :: y :: r =>
    show (if (x :: y :: r).length < OP_PUSHDATA1 then _ else _) = _
    rw [if_pos (by simpa [OP_PUSHDATA1] using h76)]
    rfl

theorem canonicalDataSize_le {d : List Nat} (h : d.length ≤ 520) :
    canonicalDataSize d ≤ 523 := by
  match d with
  | [] => simp [canonicalDataSize]
  | [b] => simp only [canonicalDataSize]; split_ifs <;> omega
  | x :: y :: r =>
    show (if (x :: y :: r).length < OP_PUSHDATA1 then 1 + (x :: y :: r).length
          else if (x :: y :: r).length ≤ 0xff then 2 + (x :: y :: r).length
          else if (x :: y :: r).length ≤ 0xffff then 3 + (x :: y :: r).length
          else 5 + (x :: y :: r).length) ≤ 523
    split_ifs <;> omega

theorem addOp_ok {b : ScriptBuilder} (he : b.err = false)
    (hl : b.script.length + 1 ≤ MaxScriptSize) (op : Nat) :
    b.addOp op = ⟨b.script ++ [op], false⟩ := by
  unfold ScriptBuilder.addOp
  rw [if_neg (by simp [he]), if_neg (by omega)]
  cases b
  simp_all

theorem addData_ok {b : ScriptBuilder} (he : b.err = false)
    (hl : b.script.length + canonicalDataSize d ≤ MaxScriptSize)
    (hd : d.length ≤ MaxScriptElementSize) :
    b.addData d = ⟨b.script ++ canonPush d, false⟩ := by
  unfold ScriptBuilder.addData
  rw [if_neg (by simp [he]), if_neg (by omega), if_neg (by omega)]
  cases b
  simp_all

theorem addFullData_ok {b : ScriptBuilder} (he : b.err = false) (d : List Nat) :
    b.addFullData d = ⟨b.script ++ canonPush d, false⟩ := by
  unfold ScriptBuilder.addFullData
  rw [if_neg (by simp [he])]
  cases b
  simp_all

theorem pushBodyChunks_ok {b : ScriptBuilder} (he : b.err = false) (body : List Nat) :
    pushBodyChunks b body
      = ⟨b.script ++ ((chunks520 body).map canonPush).flatten, false⟩ := by
  unfold pushBodyChunks
  generalize chunks520 body = cs
  induction cs generalizing b with
  | nil => cases b; simp_all
  | cons c cs ih =>
    rw [List.foldl_cons, addFullData_ok he, ih rfl]
    simp

/-- Every operation of the builder only appends to the script. -/
theorem addOp_script_append (b : ScriptBuilder) (op : Nat) :
    ∃ t, (b.addOp op).script = b.script ++ t := by
  unfold ScriptBuilder.addOp
  split_ifs
  · exact ⟨[], by simp⟩
  · exact ⟨[], by simp⟩
  · exact ⟨[op], rfl⟩

theorem addData_script_append (b : ScriptBuilder) (d : List Nat) :
    ∃ t, (b.addData d).script = b.script ++ t := by
  unfold ScriptBuilder.addData
  split_ifs
  · exact ⟨[], by simp⟩
  · exact ⟨[], by simp⟩
  · exact ⟨[], by simp⟩
  · exact ⟨canonPush d, rfl⟩

theorem pushBodyChunks_script_append (b : ScriptBuilder) (body : List Nat) :
    ∃ t, (pushBodyChunks b body).script = b.script ++ t := by
  unfold pushBodyChunks
  generalize chunks520 body = cs
  induction cs generalizing b with
  | nil => exact ⟨[], by simp⟩
  | cons c cs ih =>
    rw [List.foldl_cons]
    obtain ⟨t, ht⟩ := ih (b.addFullData c)
    unfold ScriptBuilder.addFullData at ht ⊢
    split_ifs at ht ⊢ with hb
    · exact ⟨t, ht⟩
    · exact ⟨canonPush c ++ t, by simpa using ht⟩

theorem chunksAux_flatten {l : List Nat} {fuel : Nat} (h : l.length ≤ fuel) :
    (chunksAux fuel l).flatten = l := by
  induction fuel generalizing l with
  | zero =>
    have hl : l = [] := List.length_eq_zero.mp (Nat.le_zero.mp h)
    subst hl
    rfl
  | succ n ih =>
    match l with
    | [] => rfl
    | x :: xs =>
      have hd : ((x :: xs).drop maxChunkSize).length ≤ n := by
        simp only [List.length_drop, List.length_cons, maxChunkSize]
        simp only [List.length_cons] at h
        omega
      show ((x :: xs).take maxChunkSize :: chunksAux n ((x :: xs).drop maxChunkSize)).flatten = x :: xs
      rw [List.flatten_cons, ih hd]
      exact List.take_append_drop _ _

theorem chunks520_flatten (l : List Nat) : (chunks520 l).flatten = l :=
  chunksAux_flatten le_rfl

theorem chunksAux_length {l : List Nat} {fuel : Nat} (h : l.length ≤ fuel) :
    (chunksAux fuel l).length = (l.length + 519) / 520 := by
  induction fuel generalizing l with
  | zero =>
    have : l = [] := List.length_eq_zero.mp (by omega)
    subst this
    rfl
  | succ n ih =>
    match l with
    | [] => rfl
    | x :: xs =>
      have hd : ((x :: xs).drop maxChunkSize).length ≤ n := by
        simp only [List.length_drop, List.length_cons, maxChunkSize]
        simp only [List.length_cons] at h
        omega
      show (chunksAux n ((x :: xs).drop maxChunkSize)).length + 1 = _
      rw [ih hd]
      simp only [List.length_drop, List.length_cons, maxChunkSize]
      omega

theorem chunks520_length (l : List Nat) : (chunks520 l).length = (l.length + 519) / 520 :=
  chunksAux_length le_rfl

theorem chunksAux_mem {l c : List Nat} {fuel : Nat} (hm : c ∈ chunksAux fuel l) :
    c.length ≤ 520 ∧ c ≠ [] := by
  induction fuel generalizing l with
  | zero => simp [chunksAux] at hm
  | succ n ih =>
    match l with
    | [] => simp [chunksAux] at hm
    | x :: xs =>
      rw [show chunksAux (n+1) (x :: xs)
            = (x :: xs).take maxChunkSize :: chunksAux n ((x :: xs).drop maxChunkSize) from rfl,
          List.mem_cons] at hm
      rcases hm with hm | hm
      · subst hm
        refine ⟨?_, ?_⟩
        · simp only [List.length_take, maxChunkSize]
          omega
        · apply List.length_pos.mp
          simp only [List.length_take, List.length_cons, maxChunkSize]
          omega
      · exact ih hm

theorem chunks520_mem {l c : List Nat} (hm : c ∈ chunks520 l) : c.length ≤ 520 ∧ c ≠ [] :=
  chunksAux_mem hm

theorem canonicalDataSize_eq {d : List Nat} (h2 : 2 ≤ d.length) (h76 : d.length < 76) :
    canonicalDataSize d = 1 + d.length := by
  match d with
  | [] => simp at h2
  | [b] => simp at h2
  | x :: y :: r =>
    show (if (x :: y :: r).length < OP_PUSHDATA1 then _ else _) = _
    rw [if_pos (by simpa [OP_PUSHDATA1] using h76)]

theorem canonPush_length_le {d : List Nat} (h : d.length ≤ 520) :
    (canonPush d).length ≤ 523 := by
  match d with
  | [] => simp [canonPush]
  | [b] => simp only [canonPush]; split_ifs <;> simp
  | x :: y :: r =>
    show (if (x :: y :: r).length < OP_PUSHDATA1 then [(x :: y :: r).length] ++ (x :: y :: r)
          else if (x :: y :: r).length ≤ 0xff then _
          else if (x :: y :: r).length ≤ 0xffff then _ else _).length ≤ 523
    split_ifs <;> simp_all <;> omega

/-! ## Master characterization of newInscriptionTxCtxData -/

/-- Closed form of the envelope leaf script assembled by
newInscriptionTxCtxData for key k and inscription data d (proved equal
to the code's output below): key push, OP_CHECKSIG, OP_FALSE, OP_IF,
push of "ord", OP_DATA_1 twice, push of the content type, OP_0, the
canonical pushes of the 520-byte body chunks, and a trailing OP_ENDIF. -/
def leafScriptBytes (env : Env) (k : Nat) (d : InscriptionData) : List Nat :=
  canonPush (env.xonlyPub k) ++ [OP_CHECKSIG, OP_FALSE, OP_IF]
    ++ canonPush ordTagBytes ++ [OP_DATA_1, OP_DATA_1]
    ++ canonPush d.contentType ++ [OP_0]
    ++ ((chunks520 d.body).map canonPush).flatten ++ [OP_ENDIF]

/-- The control block byte string produced for key k and script s. -/
def controlBlockBytes (env : Env) (k : Nat) (s : List Nat) : List Nat :=
  (0xc0 + (if env.outputKeyOdd k (env.tapHash s) then 1 else 0)) :: env.xonlyPub k

theorem newInscriptionTxCtxData_ok (env : Env) (req : InscriptionRequest) (i : Nat)
    {p0 : PrevOutput} (hp : req.commitTxPrevOutputList.head? = some p0)
    {k : Nat} (hk : env.wifDecode p0.privateKey = some k)
    {d : InscriptionData} (hd : req.inscriptionDataList[i]? = some d)
    (hpub : (env.xonlyPub k).length = 32)
    (hct : d.contentType.length ≤ 520)
    (hout : (env.outputKeyX k (env.tapHash (leafScriptBytes env k d))).length = 32) :
    newInscriptionTxCtxData env req i = .ok {
      privateKey := k
      inscriptionScript := leafScriptBytes env k d
      commitTxAddress := env.taprootAddr (env.outputKeyX k (env.tapHash (leafScriptBytes env k d)))
      commitTxAddressPkScript := OP_1 :: 32 :: env.outputKeyX k (env.tapHash (leafScriptBytes env k d))
      controlBlockWitness := controlBlockBytes env k (leafScriptBytes env k d)
      revealTxPrevOutput := none } := by
  have hsz : canonicalDataSize (env.xonlyPub k) = 33 := by
    rw [canonicalDataSize_eq (by omega) (by omega)]
    omega
  have hcp : canonPush (env.xonlyPub k) = 32 :: env.xonlyPub k := by
    rw [canonPush_eq_cons (by omega) (by omega), hpub]
  have hosz : canonicalDataSize ordTagBytes = 4 := by decide
  have hocp : (canonPush ordTagBytes).length = 4 := by decide
  have hctsz : canonicalDataSize d.contentType ≤ 523 := canonicalDataSize_le hct
  have hctcp : (canonPush d.contentType).length ≤ 523 := canonPush_length_le hct
  have hlen1 : (canonPush (env.xonlyPub k)).length = 33 := by rw [hcp]; simp [hpub]
  have h1 : ScriptBuilder.new.addData (env.xonlyPub k)
      = ⟨canonPush (env.xonlyPub k), false⟩ := by
    rw [addData_ok rfl (by simp [ScriptBuilder.new, hsz, MaxScriptSize]) (by simp [hpub, MaxScriptElementSize])]
    simp [ScriptBuilder.new]
  have t2 : (⟨canonPush (env.xonlyPub k), false⟩ : ScriptBuilder).addOp OP_CHECKSIG
      = ⟨canonPush (env.xonlyPub k) ++ [OP_CHECKSIG], false⟩ :=
    addOp_ok rfl (by simp only [hlen1, MaxScriptSize]; omega) _
  have t3 : (⟨canonPush (env.xonlyPub k) ++ [OP_CHECKSIG], false⟩ : ScriptBuilder).addOp OP_FALSE
      = ⟨canonPush (env.xonlyPub k) ++ [OP_CHECKSIG] ++ [OP_FALSE], false⟩ :=
    addOp_ok rfl (by simp only [List.length_append, List.length_cons, List.length_nil, hlen1, MaxScriptSize]; omega) _
  have t4 : (⟨canonPush (env.xonlyPub k) ++ [OP_CHECKSIG] ++ [OP_FALSE], false⟩ : ScriptBuilder).addOp OP_IF
      = ⟨canonPush (env.xonlyPub k) ++ [OP_CHECKSIG] ++ [OP_FALSE] ++ [OP_IF], false⟩ :=
    addOp_ok rfl (by simp only [List.length_append, List.length_cons, List.length_nil, hlen1, MaxScriptSize]; omega) _
  have t5 : (⟨canonPush (env.xonlyPub k) ++ [OP_CHECKSIG] ++ [OP_FALSE] ++ [OP_IF], false⟩ : ScriptBuilder).addData ordTagBytes
      = ⟨canonPush (env.xonlyPub k) ++ [OP_CHECKSIG] ++ [OP_FALSE] ++ [OP_IF]
          ++ canonPush ordTagBytes, false⟩ :=
    addData_ok rfl (by simp only [List.length_append, List.length_cons, List.length_nil, hlen1, hosz, MaxScriptSize]; omega) (by decide)
  have t6 : (⟨canonPush (env.xonlyPub k) ++ [OP_CHECKSIG] ++ [OP_FALSE] ++ [OP_IF]
        ++ canonPush ordTagBytes, false⟩ : ScriptBuilder).addOp OP_DATA_1
      = ⟨canonPush (env.xonlyPub k) ++ [OP_CHECKSIG] ++ [OP_FALSE] ++ [OP_IF]
          ++ canonPush ordTagBytes ++ [OP_DATA_1], false⟩ :=
    addOp_ok rfl (by simp only [List.length_append, List.length_cons, List.length_nil, hlen1, hocp, MaxScriptSize]; omega) _
  have t7 : (⟨canonPush (env.xonlyPub k) ++ [OP_CHECKSIG] ++ [OP_FALSE] ++ [OP_IF]
        ++ canonPush ordTagBytes ++ [OP_DATA_1], false⟩ : ScriptBuilder).addOp OP_DATA_1
      = ⟨canonPush (env.xonlyPub k) ++ [OP_CHECKSIG] ++ [OP_FALSE] ++ [OP_IF]
          ++ canonPush ordTagBytes ++ [OP_DATA_1] ++ [OP_DATA_1], false⟩ :=
    addOp_ok rfl (by simp only [List.length_append, List.length_cons, List.length_nil, hlen1, hocp, MaxScriptSize]; omega) _
  have t8 : (⟨canonPush (env.xonlyPub k) ++ [OP_CHECKSIG] ++ [OP_FALSE] ++ [OP_IF]
        ++ canonPush ordTagBytes ++ [OP_DATA_1] ++ [OP_DATA_1], false⟩ : ScriptBuilder).addData d.contentType
      = ⟨canonPush (env.xonlyPub k) ++ [OP_CHECKSIG] ++ [OP_FALSE] ++ [OP_IF]
          ++ canonPush ordTagBytes ++ [OP_DATA_1] ++ [OP_DATA_1]
          ++ canonPush d.contentType, false⟩ :=
    addData_ok rfl (by simp only [List.length_append, List.length_cons, List.length_nil, hlen1, hocp, MaxScriptSize]; omega) (by simpa [MaxScriptElementSize] using hct)
  have t9 : (⟨canonPush (env.xonlyPub k) ++ [OP_CHECKSIG] ++ [OP_FALSE] ++ [OP_IF]
        ++ canonPush ordTagBytes ++ [OP_DATA_1] ++ [OP_DATA_1]
        ++ canonPush d.contentType, false⟩ : ScriptBuilder).addOp OP_0
      = ⟨canonPush (env.xonlyPub k) ++ [OP_CHECKSIG] ++ [OP_FALSE] ++ [OP_IF]
          ++ canonPush ordTagBytes ++ [OP_DATA_1] ++ [OP_DATA_1]
          ++ canonPush d.contentType ++ [OP_0], false⟩ :=
    addOp_ok rfl (by simp only [List.length_append, List.length_cons, List.length_nil, hlen1, hocp, MaxScriptSize]; omega) _
  have t10 : pushBodyChunks (⟨canonPush (env.xonlyPub k) ++ [OP_CHECKSIG] ++ [OP_FALSE] ++ [OP_IF]
        ++ canonPush ordTagBytes ++ [OP_DATA_1] ++ [OP_DATA_1]
        ++ canonPush d.contentType ++ [OP_0], false⟩ : ScriptBuilder) d.body
      = ⟨canonPush (env.xonlyPub k) ++ [OP_CHECKSIG] ++ [OP_FALSE] ++ [OP_IF]
          ++ canonPush ordTagBytes ++ [OP_DATA_1] ++ [OP_DATA_1]
          ++ canonPush d.contentType ++ [OP_0]
          ++ ((chunks520 d.body).map canonPush).flatten, false⟩ :=
    pushBodyChunks_ok rfl d.body
  have hleaf : (canonPush (env.xonlyPub k) ++ [OP_CHECKSIG] ++ [OP_FALSE] ++ [OP_IF]
        ++ canonPush ordTagBytes ++ [OP_DATA_1] ++ [OP_DATA_1]
        ++ canonPush d.contentType ++ [OP_0]
        ++ ((chunks520 d.body).map canonPush).flatten) ++ [OP_ENDIF]
      = leafScriptBytes env k d := by
    simp [leafScriptBytes, List.append_assoc]
  have hosize : canonicalDataSize (env.outputKeyX k (env.tapHash (leafScriptBytes env k d))) = 33 := by
    rw [canonicalDataSize_eq (by omega) (by omega)]
    omega
  have u1 : ScriptBuilder.new.addOp OP_1 = ⟨[OP_1], false⟩ := by
    rw [addOp_ok rfl (by simp [ScriptBuilder.new, MaxScriptSize]) OP_1]
    simp [ScriptBuilder.new]
  have u2 : (⟨[OP_1], false⟩ : ScriptBuilder).addData
        (env.outputKeyX k (env.tapHash (leafScriptBytes env k d)))
      = ⟨[OP_1] ++ canonPush (env.outputKeyX k (env.tapHash (leafScriptBytes env k d))), false⟩ :=
    addData_ok rfl (by simp only [List.length_cons, List.length_nil, hosize, MaxScriptSize]; omega)
      (by simp [hout, MaxScriptElementSize])
  have u3 : canonPush (env.outputKeyX k (env.tapHash (leafScriptBytes env k d)))
      = 32 :: env.outputKeyX k (env.tapHash (leafScriptBytes env k d)) := by
    rw [canonPush_eq_cons (by omega) (by omega), hout]
  unfold newInscriptionTxCtxData
  rw [hp]
  simp only [ofOption, bind, Except.bind]
  rw [hk]
  simp only [ofOption, bind, Except.bind]
  rw [hd]
  simp only [ofOption, bind, Except.bind]
  rw [h1, t2, t3, t4, t5, t6, t7, t8, t9, t10]
  simp only [ScriptBuilder.result, Bool.false_eq_true, if_false, ite_false, ofOption, bind,
    Except.bind]
  rw [hleaf]
  rw [u1, u2, u3]
  simp only [hout, ne_eq, not_true_eq_false, if_false, ite_false, decide_True, decide_False,
    ScriptBuilder.result, Bool.false_eq_true, ofOption, bind, Except.bind, pure, Except.pure,
    controlBlockBytes]
  rfl

theorem chunksAux_nil (n : Nat) : chunksAux n [] = [] := by
  cases n <;> rfl

theorem chunksAux_single {l : List Nat} {fuel : Nat} (h0 : l ≠ []) (h : l.length ≤ 520)
    (hf : 1 ≤ fuel) : chunksAux fuel l = [l] := by
  match fuel, l, h0 with
  | n + 1, x :: xs, _ =>
    show (x :: xs).take maxChunkSize :: chunksAux n ((x :: xs).drop maxChunkSize) = [x :: xs]
    rw [List.take_of_length_le (by simpa [maxChunkSize] using h),
        List.drop_eq_nil_of_le (by simpa [maxChunkSize] using h), chunksAux_nil]

theorem chunks520_single {l : List Nat} (h0 : l ≠ []) (h : l.length ≤ 520) :
    chunks520 l = [l] :=
  chunksAux_single h0 h (by cases l with
    | nil => exact absurd rfl h0
    | cons x xs => simp)

theorem chunks520_of_length_521 {l : List Nat} (h : l.length = 521) :
    chunks520 l = [l.take 520, l.drop 520]
      ∧ (l.take 520).length = 520 ∧ (l.drop 520).length = 1
      ∧ l.take 520 ++ l.drop 520 = l := by
  refine ⟨?_, by simp [List.length_take, h], by simp [List.length_drop, h], List.take_append_drop _ _⟩
  match l, h with
  | x :: xs, h =>
    have hx : xs.length = 520 := by simpa using h
    show (x :: xs).take maxChunkSize :: chunksAux xs.length ((x :: xs).drop maxChunkSize)
        = [(x :: xs).take 520, (x :: xs).drop 520]
    rw [show maxChunkSize = 520 from rfl]
    rw [chunksAux_single (l := (x :: xs).drop 520) ?h0 ?h1 (by omega)]
    case h0 =>
      apply List.length_pos.mp
      simp only [List.length_drop, List.length_cons]
      omega
    case h1 =>
      simp only [List.length_drop, List.length_cons]
      omega

/-! ## Claim C3: envelope leaf script layout -/

/-- C3: the leaf script is exactly, in order: the push of the 32-byte
x-only key, OP_CHECKSIG, OP_FALSE, OP_IF, the push of "ord", OP_DATA_1
twice, the push of the content type, OP_0, the canonical pushes of the
520-byte body chunks in order, and a trailing OP_ENDIF appended after
script-builder serialization; the chunks cover the body contiguously,
each is nonempty and at most 520 bytes; a 520-byte body yields exactly
one chunk, a 521-byte body yields chunks of 520 and 1 bytes, and an
empty body yields no chunks. -/
theorem claim_C3 (env : Env) (req : InscriptionRequest) (i : Nat)
    {p0 : PrevOutput} (hp : req.commitTxPrevOutputList.head? = some p0)
    {k : Nat} (hk : env.wifDecode p0.privateKey = some k)
    {d : InscriptionData} (hd : req.inscriptionDataList[i]? = some d)
    (hpub : (env.xonlyPub k).length = 32)
    (hct : d.contentType.length ≤ 520)
    (hout : (env.outputKeyX k (env.tapHash (leafScriptBytes env k d))).length = 32)
    {ci : CtxData} (h : newInscriptionTxCtxData env req i = .ok ci) :
    ci.inscriptionScript
      = (32 :: env.xonlyPub k) ++ [OP_CHECKSIG, OP_FALSE, OP_IF]
          ++ (3 :: ordTagBytes) ++ [OP_DATA_1, OP_DATA_1]
          ++ canonPush d.contentType ++ [OP_0]
          ++ ((chunks520 d.body).map canonPush).flatten ++ [OP_ENDIF]
      ∧ (chunks520 d.body).flatten = d.body
      ∧ (∀ c ∈ chunks520 d.body, c.length ≤ 520 ∧ c ≠ [])
      ∧ (chunks520 d.body).length = (d.body.length + 519) / 520
      ∧ (d.body.length = 520 → chunks520 d.body = [d.body])
      ∧ (d.body.length = 521 →
          chunks520 d.body = [d.body.take 520, d.body.drop 520]
            ∧ (d.body.take 520).length = 520 ∧ (d.body.drop 520).length = 1)
      ∧ (d.body = [] → chunks520 d.body = []) := by
  rw [newInscriptionTxCtxData_ok env req i hp hk hd hpub hct hout] at h
  injection h with h
  subst h
  refine ⟨?_, chunks520_flatten d.body, fun c hc => chunks520_mem hc, chunks520_length d.body,
    ?_, ?_, ?_⟩
  · show leafScriptBytes env k d = _
    rw [leafScriptBytes, canonPush_eq_cons (by omega) (by omega), hpub,
        show canonPush ordTagBytes = 3 :: ordTagBytes from rfl]
  · intro h520
    exact chunks520_single (by intro hn; rw [hn] at h520; simp at h520) (by omega)
  · intro h521
    obtain ⟨h1, h2, h3, _⟩ := chunks520_of_length_521 h521
    exact ⟨h1, h2, h3⟩
  · intro hb
    rw [hb]
    rfl

instance {ε α : Type} [DecidableEq ε] [DecidableEq α] : DecidableEq (Except ε α) :=
  fun a b => match a, b with
  | .ok x, .ok y => if h : x = y then isTrue (by rw [h]) else isFalse (by simp [h])
  | .error x, .error y => if h : x = y then isTrue (by rw [h]) else isFalse (by simp [h])
  | .ok _, .error _ => isFalse (by simp)
  | .error _, .ok _ => isFalse (by simp)

/-- The context the test pipeline builds for the first inscription. -/
def testCtx0 : CtxData :=
  (newInscriptionTxCtxData testEnv testRequest 0).toOption.getD
    ⟨0, [], "", [], [], none⟩

/-- Witness for C3 at the concrete test environment and request. -/
theorem claim_C3_witness :
    newInscriptionTxCtxData testEnv testRequest 0 = .ok testCtx0
      ∧ testCtx0.inscriptionScript
        = (32 :: testEnv.xonlyPub 1) ++ [OP_CHECKSIG, OP_FALSE, OP_IF]
            ++ (3 :: ordTagBytes) ++ [OP_DATA_1, OP_DATA_1]
            ++ canonPush testInscription.contentType ++ [OP_0]
            ++ ((chunks520 testInscription.body).map canonPush).flatten ++ [OP_ENDIF] :=
  have h : newInscriptionTxCtxData testEnv testRequest 0 = .ok testCtx0 := by decide
  ⟨h, (claim_C3 testEnv testRequest 0 rfl rfl rfl (by decide) (by decide) (by decide) h).1⟩

/-! ## Claim C7: a single reveal key taken from the first prev output -/

/-- C7: the envelope builder decodes the private key from the FIRST
commit prev output's WIF string for every inscription index: both
contexts carry that key, the leaf script opens with the push of its
x-only public key, the taproot commitment and address tweak that key,
and the control block embeds it as the internal key; in particular any
two inscriptions of one request share the same reveal key. -/
theorem claim_C7 (env : Env) (req : InscriptionRequest) (i j : Nat)
    {p0 : PrevOutput} (hp : req.commitTxPrevOutputList.head? = some p0)
    {k : Nat} (hk : env.wifDecode p0.privateKey = some k)
    {di dj : InscriptionData} (hdi : req.inscriptionDataList[i]? = some di)
    (hdj : req.inscriptionDataList[j]? = some dj)
    (hpub : (env.xonlyPub k).length = 32)
    (hcti : di.contentType.length ≤ 520) (hctj : dj.contentType.length ≤ 520)
    (houti : (env.outputKeyX k (env.tapHash (leafScriptBytes env k di))).length = 32)
    (houtj : (env.outputKeyX k (env.tapHash (leafScriptBytes env k dj))).length = 32)
    {ci cj : CtxData}
    (hi : newInscriptionTxCtxData env req i = .ok ci)
    (hj : newInscriptionTxCtxData env req j = .ok cj) :
    ci.privateKey = k ∧ cj.privateKey = ci.privateKey
      ∧ (∃ t, ci.inscriptionScript = (32 :: env.xonlyPub k) ++ t)
      ∧ ci.controlBlockWitness.tail = env.xonlyPub k
      ∧ ci.commitTxAddressPkScript
          = OP_1 :: 32 :: env.outputKeyX k (env.tapHash ci.inscriptionScript)
      ∧ ci.commitTxAddress
          = env.taprootAddr (env.outputKeyX k (env.tapHash ci.inscriptionScript)) := by
  rw [newInscriptionTxCtxData_ok env req i hp hk hdi hpub hcti houti] at hi
  rw [newInscriptionTxCtxData_ok env req j hp hk hdj hpub hctj houtj] at hj
  injection hi with hi
  injection hj with hj
  subst hi
  subst hj
  refine ⟨rfl, rfl, ⟨?_, ?_⟩, rfl, rfl, rfl⟩
  · exact [OP_CHECKSIG, OP_FALSE, OP_IF] ++ canonPush ordTagBytes ++ [OP_DATA_1, OP_DATA_1]
      ++ canonPush di.contentType ++ [OP_0]
      ++ ((chunks520 di.body).map canonPush).flatten ++ [OP_ENDIF]
  · show leafScriptBytes env k di = _
    rw [leafScriptBytes, canonPush_eq_cons (by omega) (by omega), hpub]
    simp [List.append_assoc]

/-- Witness for C7: the test request instantiated at indices 0 and 0. -/
theorem claim_C7_witness :
    newInscriptionTxCtxData testEnv testRequest 0 = .ok testCtx0
      ∧ testCtx0.privateKey = 1
      ∧ testCtx0.controlBlockWitness.tail = testEnv.xonlyPub 1 :=
  have h : newInscriptionTxCtxData testEnv testRequest 0 = .ok testCtx0 := by decide
  have c := claim_C7 testEnv testRequest 0 0 rfl rfl rfl rfl (by decide) (by decide) (by decide)
    (by decide) (by decide) h h
  ⟨h, c.1, c.2.2.2.1⟩

/-! ## Claim C9: the 33-byte single-leaf control block -/

/-- C9: the control block is exactly 33 bytes: the leaf version 0xc0
combined with the output-key parity bit, followed by the 32-byte x-only
internal public key, with no merkle path appended. -/
theorem claim_C9 (env : Env) (req : InscriptionRequest) (i : Nat)
    {p0 : PrevOutput} (hp : req.commitTxPrevOutputList.head? = some p0)
    {k : Nat} (hk : env.wifDecode p0.privateKey = some k)
    {d : InscriptionData} (hd : req.inscriptionDataList[i]? = some d)
    (hpub : (env.xonlyPub k).length = 32)
    (hct : d.contentType.length ≤ 520)
    (hout : (env.outputKeyX k (env.tapHash (leafScriptBytes env k d))).length = 32)
    {ci : CtxData} (h : newInscriptionTxCtxData env req i = .ok ci) :
    ci.controlBlockWitness
        = (0xc0 + (if env.outputKeyOdd k (env.tapHash ci.inscriptionScript) then 1 else 0))
            :: env.xonlyPub k
      ∧ ci.controlBlockWitness.length = 33 := by
  rw [newInscriptionTxCtxData_ok env req i hp hk hd hpub hct hout] at h
  injection h with h
  subst h
  refine ⟨rfl, ?_⟩
  show (controlBlockBytes env k (leafScriptBytes env k d)).length = 33
  rw [controlBlockBytes]
  simp [hpub]

/-- Witness for C9 at the concrete test request. -/
theorem claim_C9_witness :
    newInscriptionTxCtxData testEnv testRequest 0 = .ok testCtx0
      ∧ testCtx0.controlBlockWitness.length = 33 :=
  have h : newInscriptionTxCtxData testEnv testRequest 0 = .ok testCtx0 := by decide
  ⟨h, (claim_C9 testEnv testRequest 0 rfl rfl rfl (by decide) (by decide) (by decide) h).2⟩

/-! ## Claim C6: the 400000 weight limit on reveal transactions -/

theorem checkWeightsAux_ok_iff (txs : List MsgTx) (i : Nat) :
    checkWeightsAux i txs = .ok ()
      ↔ ∀ tx ∈ txs, GetTransactionWeight tx ≤ MaxStandardTxWeight := by
  induction txs generalizing i with
  | nil => simp [checkWeightsAux]
  | cons t rest ih =>
    unfold checkWeightsAux
    split_ifs with hw
    · simp only [List.mem_cons]
      constructor
      · intro hcontra
        exact absurd hcontra (by simp)
      · intro hall
        exact absurd (hall t (Or.inl rfl)) (by omega)
    · rw [ih (i + 1)]
      simp only [List.mem_cons]
      constructor
      · intro hall tx htx
        rcases htx with htx | htx
        · subst htx; omega
        · exact hall tx htx
      · intro hall tx htx
        exact hall tx (Or.inr htx)

theorem checkWeightsAux_first_err (txs : List MsgTx) (i j : Nat) (hj : j < txs.length)
    (hbelow : ∀ m (hm : m < j), GetTransactionWeight (txs.get ⟨m, by omega⟩) ≤ MaxStandardTxWeight)
    (hover : MaxStandardTxWeight < GetTransactionWeight (txs.get ⟨j, hj⟩)) :
    checkWeightsAux i txs = .error (weightErrMsg (i + j) (GetTransactionWeight (txs.get ⟨j, hj⟩))) := by
  induction txs generalizing i j with
  | nil => simp at hj
  | cons t rest ih =>
    match j with
    | 0 =>
      unfold checkWeightsAux
      rw [if_pos (by simpa using hover)]
      simp
    | m + 1 =>
      have ht : GetTransactionWeight t ≤ MaxStandardTxWeight := hbelow 0 (by omega)
      unfold checkWeightsAux
      rw [if_neg (by omega)]
      have := ih (i + 1) m (by simpa using hj)
        (fun m' hm' => hbelow (m' + 1) (by omega)) (by simpa using hover)
      rw [this]
      have harith : i + 1 + m = i + (m + 1) := by omega
      rw [harith]
      rfl

/-- ofOption succeeds exactly on some. -/
theorem ofOption_ok {α : Type} {o : Option α} {msg : String} {a : α} :
    ofOption o msg = .ok a ↔ o = some a := by
  cases o <;> simp [ofOption]

/-- Inverts a successful Except bind. -/
theorem exceptBind_ok {ε α β : Type} {x : Except ε α} {f : α → Except ε β} {y : β}
    (h : x >>= f = Except.ok y) : ∃ a, x = Except.ok a ∧ f a = Except.ok y := by
  cases x with
  | error e => simp [Bind.bind, Except.bind] at h
  | ok a => exact ⟨a, rfl, by simpa [Bind.bind, Except.bind] using h⟩

/-- Extraction from a successful completeRevealTx run: the returned
transactions are exactly the ones that passed the weight check. -/
theorem completeRevealTx_checked {env : Env} {c : MsgTx} {ctxs : List CtxData}
    {txs : List MsgTx} {out : List MsgTx × Fetcher}
    (h : completeRevealTx env c ctxs txs = .ok out) :
    checkWeights out.1 = .ok () := by
  unfold completeRevealTx at h
  obtain ⟨f, hf, h⟩ := exceptBind_ok h
  obtain ⟨txs1, h1, h⟩ := exceptBind_ok h
  obtain ⟨txs2, h2, h⟩ := exceptBind_ok h
  obtain ⟨u, hw, h⟩ := exceptBind_ok h
  simp only [pure, Except.pure, Except.ok.injEq] at h
  cases u
  rw [← h]
  simpa using hw

/-- C6: GetTransactionWeight is 3 * base_size + total_size; the weight
check fails exactly when some transaction exceeds 400000, reporting the
first offending index with its weight; hence every reveal transaction
of a successful completeRevealTx run satisfies weight ≤ 400000. -/
theorem claim_C6 :
    (∀ tx : MsgTx, GetTransactionWeight tx
        = 3 * (msgTxSerializeSizeStripped tx : Int) + (msgTxSerializeSize tx : Int))
    ∧ (∀ txs : List MsgTx,
        (checkWeights txs = .ok () ↔ ∀ tx ∈ txs, GetTransactionWeight tx ≤ MaxStandardTxWeight)
        ∧ ∀ j (hj : j < txs.length),
            (∀ m (hm : m < j), GetTransactionWeight (txs.get ⟨m, by omega⟩) ≤ MaxStandardTxWeight) →
            MaxStandardTxWeight < GetTransactionWeight (txs.get ⟨j, hj⟩) →
            checkWeights txs = .error (weightErrMsg j (GetTransactionWeight (txs.get ⟨j, hj⟩))))
    ∧ (∀ (env : Env) (c : MsgTx) (ctxs : List CtxData) (txs : List MsgTx)
        (out : List MsgTx × Fetcher), completeRevealTx env c ctxs txs = .ok out →
          ∀ tx ∈ out.1, GetTransactionWeight tx ≤ MaxStandardTxWeight) := by
  refine ⟨?_, ?_, ?_⟩
  · intro tx
    unfold GetTransactionWeight WitnessScaleFactor
    push_cast
    ring
  · intro txs
    refine ⟨checkWeightsAux_ok_iff txs 0, ?_⟩
    intro j hj hbelow hover
    have := checkWeightsAux_first_err txs 0 j hj hbelow hover
    simpa using this
  · intro env c ctxs txs out h
    exact (checkWeightsAux_ok_iff out.1 0).mp (completeRevealTx_checked h)

/-- A commit transaction stand-in and a pre-sized context for
exercising completeRevealTx concretely. -/
def testCommitStub : MsgTx := { version := 2, txIn := [], txOut := [], lockTime := 0 }

def testCtxSized : CtxData :=
  { testCtx0 with revealTxPrevOutput := some ⟨600, testCtx0.commitTxAddressPkScript⟩ }

def testRevealSkel : MsgTx := skeletalRevealTx 0 546 (0x51 :: 0x20 :: List.replicate 32 5)

def testCompleteOut : List MsgTx × Fetcher :=
  (completeRevealTx testEnv testCommitStub [testCtxSized] [testRevealSkel]).toOption.getD ([], [])

/-- Witness for C6: a concrete successful completeRevealTx run whose
output satisfies the weight bound. -/
theorem claim_C6_witness :
    completeRevealTx testEnv testCommitStub [testCtxSized] [testRevealSkel] = .ok testCompleteOut
      ∧ ∀ tx ∈ testCompleteOut.1, GetTransactionWeight tx ≤ MaxStandardTxWeight :=
  have h : completeRevealTx testEnv testCommitStub [testCtxSized] [testRevealSkel]
      = .ok testCompleteOut := by decide
  ⟨h, claim_C6.2.2 testEnv testCommitStub [testCtxSized] [testRevealSkel] testCompleteOut h⟩

/-! ## Claim C4: insufficient balance surfaces as a fee-only response -/

/-- C4: when the pipeline ends with the "insufficient balance" error,
Inscribe returns a normal response whose commitTx is empty, whose
revealTxs list is empty, and whose fee fields carry must_commit_fee,
must_reveal_fees and the commit addresses; any other pipeline error is
returned as an error, so InsufficientBalance is the only error kind
surfaced as a response. -/
theorem claim_C4 (env : Env) (req : InscriptionRequest) (b : Builder) (e : Option String)
    (h : newInscriptionToolRun env req = (b, e)) :
    (e = some "insufficient balance" →
      Inscribe env req = .ok {
        commitTx := ""
        revealTxs := []
        commitTxFee := b.mustCommitTxFee
        revealTxFees := b.mustRevealTxFees
        commitAddrs := b.commitAddrs })
    ∧ (∀ msg, e = some msg → msg ≠ "insufficient balance" →
        Inscribe env req = .error msg) := by
  constructor
  · intro he
    subst he
    unfold Inscribe
    rw [h]
    simp
  · intro msg he hne
    subst he
    unfold Inscribe
    rw [h]
    simp [hne]

/-- The pipeline state on the underfunded test request. -/
def poorToolRun : Builder × Option String := newInscriptionToolRun testEnv poorRequest

/-- Witness for C4: the underfunded test request ends in insufficient
balance and Inscribe surfaces the fee-only response. -/
theorem claim_C4_witness :
    newInscriptionToolRun testEnv poorRequest = (poorToolRun.1, some "insufficient balance")
      ∧ Inscribe testEnv poorRequest = .ok {
          commitTx := ""
          revealTxs := []
          commitTxFee := poorToolRun.1.mustCommitTxFee
          revealTxFees := poorToolRun.1.mustRevealTxFees
          commitAddrs := poorToolRun.1.commitAddrs } :=
  have h : newInscriptionToolRun testEnv poorRequest
      = (poorToolRun.1, some "insufficient balance") := by decide
  ⟨h, (claim_C4 testEnv poorRequest poorToolRun.1 (some "insufficient balance") h).1 rfl⟩

/-! ## Claim C2: the reveal pre-sizer -/

/-- A context with its reveal prevout sized to the given value, paying
to its own commit pkScript. -/
def sizedCtx (ctx : CtxData) (v : Int) : CtxData :=
  { ctx with revealTxPrevOutput := some { value := v, pkScript := ctx.commitTxAddressPkScript } }

/-- Structure of a successful buildEmptyRevealTxAux run: every context
is sized with required = revealOutValue + base_size * rate +
((witness_size + 2 + 3) / 4) * rate, the must-fee list records
required - revealOutValue, and the total is the sum of the required
values. -/
theorem buildEmptyRevealTxAux_spec {env : Env} {idx : Nat} {ctxs : List CtxData}
    {dests : List String} {rov rate : Int} {out : RevealBuild}
    (h : buildEmptyRevealTxAux env idx ctxs dests rov rate = .ok out) :
    ctxs.length ≤ dests.length
    ∧ out.revealTx.length = ctxs.length
    ∧ out.mustRevealTxFees.length = ctxs.length
    ∧ out.ctxList.length = ctxs.length
    ∧ out.totalPrevOutputValue
        = (out.ctxList.map (fun c => ((c.revealTxPrevOutput).map TxOut.value).getD 0)).sum
    ∧ ∀ i (hi : i < ctxs.length) (hd : i < dests.length) (h1 : i < out.revealTx.length)
        (h2 : i < out.mustRevealTxFees.length) (h3 : i < out.ctxList.length),
        ∃ pk, env.addrToPkScript (dests.get ⟨i, hd⟩) = some pk
          ∧ out.revealTx.get ⟨i, h1⟩ = skeletalRevealTx (idx + i) rov pk
          ∧ out.ctxList.get ⟨i, h3⟩ = sizedCtx (ctxs.get ⟨i, hi⟩)
              (rov + (msgTxSerializeSize (skeletalRevealTx (idx + i) rov pk) : Int) * rate
                + revealWitnessFee (ctxs.get ⟨i, hi⟩).inscriptionScript rate)
          ∧ out.mustRevealTxFees.get ⟨i, h2⟩
              = (msgTxSerializeSize (skeletalRevealTx (idx + i) rov pk) : Int) * rate
                + revealWitnessFee (ctxs.get ⟨i, hi⟩).inscriptionScript rate := by
  induction ctxs generalizing idx dests out with
  | nil =>
    unfold buildEmptyRevealTxAux at h
    injection h with h
    subst h
    refine ⟨Nat.zero_le _, rfl, rfl, rfl, rfl, ?_⟩
    intro i hi
    exact absurd hi (by simp)
  | cons ctx rest ih =>
    match dests with
    | [] => exact absurd h (by simp [buildEmptyRevealTxAux])
    | dest :: dests' =>
      unfold buildEmptyRevealTxAux at h
      obtain ⟨s, hs, h⟩ := exceptBind_ok h
      obtain ⟨tx, mustFee, addr, ctx'⟩ := s
      obtain ⟨ro, hro, h⟩ := exceptBind_ok h
      unfold revealStep at hs
      obtain ⟨pk, hpk, hs⟩ := exceptBind_ok hs
      rw [ofOption_ok] at hpk
      simp only [pure, Except.pure, Except.ok.injEq, Prod.mk.injEq] at hs h
      obtain ⟨htx, hfee, haddr, hctx'⟩ := hs
      subst htx
      subst hfee
      subst haddr
      subst hctx'
      subst h
      obtain ⟨ihlen, ihr, ihm, ihc, ihtot, ihall⟩ := ih hro
      refine ⟨by simpa using ihlen, by simpa using ihr, by simpa using ihm,
        by simpa using ihc, ?_, ?_⟩
      · simp only [List.map_cons, List.sum_cons]
        rw [← ihtot]
        simp only [Option.map_some', Option.getD_some]
        ring
      · intro i hi hd h1 h2 h3
        match i with
        | 0 =>
          refine ⟨pk, hpk, ?_, ?_, ?_⟩ <;> simp [List.get, sizedCtx]
        | n + 1 =>
          have harith : idx + 1 + n = idx + (n + 1) := by omega
          obtain ⟨pk', hpk', e1, e2, e3⟩ := ihall n (by simpa using hi) (by simpa using hd)
            (by simpa using h1) (by simpa using h2) (by simpa using h3)
          rw [harith] at e1 e2 e3
          exact ⟨pk', hpk', e1, e2, e3⟩

/-- C2: the reveal pre-sizer computes, for every inscription i, the
required funding value reveal_out_value + base_size * rate +
((witness_size + 2 + 3) / 4) * rate over the skeletal reveal
transaction and the dummy witness, stores it as reveal_prevout[i]
paying to the commit pkScript, records must_reveal_fees[i] =
required - reveal_out_value, and returns the sum of the required
values; the MPC pre-sizer computes the same required value. -/
theorem claim_C2 (env : Env) (ctxs : List CtxData) (dests : List String) (rov rate : Int)
    (out : RevealBuild) (h : buildEmptyRevealTx env ctxs dests rov rate = .ok out) :
    (∀ i (hi : i < ctxs.length) (hd : i < dests.length) (h2 : i < out.mustRevealTxFees.length)
        (h3 : i < out.ctxList.length),
      ∃ pk required,
        env.addrToPkScript (dests.get ⟨i, hd⟩) = some pk
        ∧ required = rov + (msgTxSerializeSize (skeletalRevealTx i rov pk) : Int) * rate
            + revealWitnessFee (ctxs.get ⟨i, hi⟩).inscriptionScript rate
        ∧ (out.ctxList.get ⟨i, h3⟩).revealTxPrevOutput
            = some { value := required, pkScript := (ctxs.get ⟨i, hi⟩).commitTxAddressPkScript }
        ∧ out.mustRevealTxFees.get ⟨i, h2⟩ = required - rov)
    ∧ out.totalPrevOutputValue
        = (out.ctxList.map (fun c => ((c.revealTxPrevOutput).map TxOut.value).getD 0)).sum
    ∧ (∀ (req : InscriptionRequest) (i : Nat) (ctx : CtxData) (d : InscriptionData)
        (pk : List Nat),
        req.inscriptionDataList[i]? = some d →
        env.addrToPkScript d.revealAddr = some pk →
        ∃ v ctx' po, mpcRevealStep env req i ctx
            = .ok (skeletalRevealTx i (effRevealOutValue req) pk, v, ctx', po)
          ∧ v = effRevealOutValue req
              + (msgTxSerializeSize (skeletalRevealTx i (effRevealOutValue req) pk) : Int)
                  * req.revealFeeRate
              + revealWitnessFee ctx.inscriptionScript req.revealFeeRate
          ∧ po = { value := v, pkScript := ctx.commitTxAddressPkScript }
          ∧ ctx' = { ctx with revealTxPrevOutput := some po }) := by
  obtain ⟨hlen, hr, hm, hc, htot, hall⟩ := buildEmptyRevealTxAux_spec h
  refine ⟨?_, htot, ?_⟩
  · intro i hi hd h2 h3
    obtain ⟨pk, hpk, _, e2, e3⟩ := hall i hi hd (by omega) h2 h3
    refine ⟨pk, _, hpk, rfl, ?_, ?_⟩
    · rw [e2]
      simp [sizedCtx]
    · rw [e3]
      simp only [Nat.zero_add]
      ring
  · intro req i ctx d pk hins hpk
    set v := effRevealOutValue req
        + ((msgTxSerializeSize (skeletalRevealTx i (effRevealOutValue req) pk)
            + (witnessSerializeSize (dummyWitness ctx.inscriptionScript) + 2 + 3) / 4 : Nat) : Int)
          * req.revealFeeRate with hv
    refine ⟨v, { ctx with revealTxPrevOutput := some ⟨v, ctx.commitTxAddressPkScript⟩ },
      ⟨v, ctx.commitTxAddressPkScript⟩, ?_, ?_, rfl, rfl⟩
    · unfold mpcRevealStep
      rw [hins]
      simp only [ofOption, bind, Except.bind]
      rw [hpk]
      simp only [ofOption, bind, Except.bind]
      rw [hv]
      rfl
    · rw [hv]
      unfold revealWitnessFee
      push_cast
      ring

/-- The pre-sizer output on the concrete test context. -/
def testRevealBuild : RevealBuild :=
  (buildEmptyRevealTx testEnv [testCtx0] ["addr2"] 546 1).toOption.getD ⟨[], [], [], [], 0⟩

/-- Witness for C2 at the concrete test context. -/
theorem claim_C2_witness :
    buildEmptyRevealTx testEnv [testCtx0] ["addr2"] 546 1 = .ok testRevealBuild
      ∧ testRevealBuild.totalPrevOutputValue
          = (testRevealBuild.ctxList.map
              (fun c => ((c.revealTxPrevOutput).map TxOut.value).getD 0)).sum :=
  have h : buildEmptyRevealTx testEnv [testCtx0] ["addr2"] 546 1 = .ok testRevealBuild := by
    decide
  ⟨h, (claim_C2 testEnv [testCtx0] ["addr2"] 546 1 testRevealBuild h).2.1⟩

/-! ## Claim C1: commit change decision and insufficient balance -/

theorem varIntSerializeSize_mono {n m : Nat} (h : n ≤ m) :
    varIntSerializeSize n ≤ varIntSerializeSize m := by
  unfold varIntSerializeSize
  split_ifs <;> omega

theorem sum_map_dropLast_le {α : Type} (f : α → Nat) :
    ∀ l : List α, ((l.dropLast).map f).sum ≤ (l.map f).sum
  | [] => le_refl _
  | [a] => by simp
  | a :: b :: t => by
    show (List.map f (a :: (b :: t).dropLast)).sum ≤ _
    simp only [List.map_cons, List.sum_cons]
    exact Nat.add_le_add_left (sum_map_dropLast_le f (b :: t)) _

theorem msgTxBaseSize_dropLast_le (tx : MsgTx) :
    msgTxBaseSize { tx with txOut := tx.txOut.dropLast } ≤ msgTxBaseSize tx := by
  unfold msgTxBaseSize
  have h1 : varIntSerializeSize tx.txOut.dropLast.length
      ≤ varIntSerializeSize tx.txOut.length :=
    varIntSerializeSize_mono (by simp [List.length_dropLast])
  have h2 := sum_map_dropLast_le txOutSerializeSize tx.txOut
  simp only
  omega

theorem msgTxSerializeSize_dropLast_le (tx : MsgTx) :
    msgTxSerializeSize { tx with txOut := tx.txOut.dropLast } ≤ msgTxSerializeSize tx := by
  have hb := msgTxBaseSize_dropLast_le tx
  unfold msgTxSerializeSize msgTxHasWitness
  simp only
  split_ifs <;> omega

theorem getTxVirtualSize_dropLast_le (tx : MsgTx) :
    GetTxVirtualSize { tx with txOut := tx.txOut.dropLast } ≤ GetTxVirtualSize tx := by
  unfold GetTxVirtualSize GetTransactionWeight
  have hs := msgTxBaseSize_dropLast_le tx
  have ht := msgTxSerializeSize_dropLast_le tx
  apply Int.ediv_le_ediv (by decide)
  have : msgTxSerializeSizeStripped { tx with txOut := tx.txOut.dropLast }
      ≤ msgTxSerializeSizeStripped tx := hs
  push_cast
  unfold WitnessScaleFactor
  omega

theorem setLastValue_length : ∀ (l : List TxOut) (v : Int), (setLastValue l v).length = l.length
  | [], _ => rfl
  | [_], _ => rfl
  | _ :: o :: t, v => by
    show (setLastValue (o :: t) v).length + 1 = _
    rw [setLastValue_length (o :: t) v]
    rfl

theorem setLastValue_concat (v : Int) : ∀ (l : List TxOut) (o : TxOut),
    setLastValue (l ++ [o]) v = l ++ [{ o with value := v }]
  | [], o => rfl
  | a :: t, o => by
    show setLastValue (a :: (t ++ [o])) v = _
    match t with
    | [] => rfl
    | b :: t' =>
      show a :: setLastValue ((b :: t') ++ [o]) v = _
      rw [setLastValue_concat v (b :: t') o]
      rfl

/-- The commit transaction skeleton shared by the dry-sign estimate and
the final commit: the given inputs, the reveal outputs, and a trailing
zero-value change output. -/
def commitEst (changePk : List Nat) (ins : List TxIn) (insOuts : List TxOut) : MsgTx :=
  { version := DefaultTxVersion
    txIn := ins
    txOut := insOuts ++ [{ value := 0, pkScript := changePk }]
    lockTime := 0 }

/-- Reduction of buildCommitTx on its happy prefix: with the change
pkScript, inputs, reveal outputs and dry-sign given, the result is the
change-decision cascade of the source. -/
theorem buildCommitTx_reduce (env : Env) (prevOuts : List PrevOutput) (changeAddress : String)
    (totalReveal rate mcv : Int) (revealOuts : List (Option TxOut))
    {changePk : List Nat} (hc : env.addrToPkScript changeAddress = some changePk)
    {ins : List TxIn} {fetcher : Fetcher} {total : Int}
    (hins : collectCommitInputs env prevOuts = .ok (ins, fetcher, total))
    {insOuts : List TxOut} (hmap : revealOuts.mapM id = some insOuts)
    {estIns : List TxIn}
    (hsign : env.signAll (commitEst changePk ins insOuts) = some estIns) :
    buildCommitTx env prevOuts changeAddress totalReveal rate mcv revealOuts
      = (if mcv ≤ total - totalReveal
              - GetTxVirtualSize (commitEst changePk estIns insOuts) * rate then
           .ok ({ commitEst changePk estIns insOuts with
             txOut := setLastValue (commitEst changePk estIns insOuts).txOut
               (total - totalReveal
                 - GetTxVirtualSize (commitEst changePk estIns insOuts) * rate) }, fetcher)
         else if total - totalReveal
              - GetTxVirtualSize (commitEst changePk estIns insOuts) * rate < 0 then
           if total - totalReveal
               - GetTxVirtualSize { commitEst changePk estIns insOuts with
                   txOut := ((commitEst changePk estIns insOuts).txOut).dropLast } * rate < 0 then
             .error (.insufficientBalance
               (GetTxVirtualSize (commitEst changePk estIns insOuts) * rate))
           else
             .ok ({ commitEst changePk estIns insOuts with
               txOut := ((commitEst changePk estIns insOuts).txOut).dropLast }, fetcher)
         else
           .ok ({ commitEst changePk estIns insOuts with
             txOut := ((commitEst changePk estIns insOuts).txOut).dropLast }, fetcher)) := by
  unfold buildCommitTx
  rw [hc]
  simp only [bind, Except.bind, pure, Except.pure]
  rw [show collectCommitInputs env prevOuts = .ok (ins, fetcher, total) from hins]
  simp only [bind, Except.bind, pure, Except.pure]
  rw [hmap]
  simp only [bind, Except.bind, pure, Except.pure]
  rw [show env.signAll { version := DefaultTxVersion
                         txIn := ins
                         txOut := insOuts ++ [{ value := 0, pkScript := changePk }]
                         lockTime := 0 } = some estIns from hsign]
  simp only [bind, Except.bind, pure, Except.pure, throw, throwThe, MonadExceptOf.throw]
  rfl

/-- C1: with fee = vsize(dry-signed commit) * rate and change =
inputs - total_reveal_funding - fee, the trailing change output is
retained with value change exactly when change ≥ min_change_value;
the build fails with InsufficientBalance recording the with-change fee
exactly when inputs - total_reveal_funding - fee_without_change < 0,
fee_without_change being recomputed on the estimate with the change
output dropped; a non-negative remainder below min_change_value still
succeeds, with the change output dropped. -/
theorem claim_C1 (env : Env) (prevOuts : List PrevOutput) (changeAddress : String)
    (totalReveal rate mcv : Int) (revealOuts : List (Option TxOut))
    {changePk : List Nat} (hc : env.addrToPkScript changeAddress = some changePk)
    {ins : List TxIn} {fetcher : Fetcher} {total : Int}
    (hins : collectCommitInputs env prevOuts = .ok (ins, fetcher, total))
    {insOuts : List TxOut} (hmap : revealOuts.mapM id = some insOuts)
    {estIns : List TxIn}
    (hsign : env.signAll (commitEst changePk ins insOuts) = some estIns)
    (hrate : 0 ≤ rate) (hmcv : 0 ≤ mcv) :
    (buildCommitTx env prevOuts changeAddress totalReveal rate mcv revealOuts
        = .ok ({ commitEst changePk estIns insOuts with
            txOut := insOuts ++ [{ value := total - totalReveal - GetTxVirtualSize (commitEst changePk estIns insOuts) * rate
                                   pkScript := changePk }] }, fetcher)
      ↔ mcv ≤ total - totalReveal - GetTxVirtualSize (commitEst changePk estIns insOuts) * rate)
    ∧ (buildCommitTx env prevOuts changeAddress totalReveal rate mcv revealOuts
        = .error (.insufficientBalance
            (GetTxVirtualSize (commitEst changePk estIns insOuts) * rate))
      ↔ total - totalReveal
          - GetTxVirtualSize { commitEst changePk estIns insOuts with txOut := insOuts } * rate < 0)
    ∧ (0 ≤ total - totalReveal - GetTxVirtualSize (commitEst changePk estIns insOuts) * rate →
        total - totalReveal - GetTxVirtualSize (commitEst changePk estIns insOuts) * rate < mcv →
        buildCommitTx env prevOuts changeAddress totalReveal rate mcv revealOuts
          = .ok ({ commitEst changePk estIns insOuts with txOut := insOuts }, fetcher)) := by
  have hred := buildCommitTx_reduce env prevOuts changeAddress totalReveal rate mcv revealOuts
    hc hins hmap hsign
  have hdrop : ((commitEst changePk estIns insOuts).txOut).dropLast = insOuts := by
    show (insOuts ++ [({ value := 0, pkScript := changePk } : TxOut)]).dropLast = insOuts
    exact List.dropLast_concat
  have hset : setLastValue (commitEst changePk estIns insOuts).txOut
      (total - totalReveal - GetTxVirtualSize (commitEst changePk estIns insOuts) * rate)
      = insOuts ++ [{ value := total - totalReveal - GetTxVirtualSize (commitEst changePk estIns insOuts) * rate
                      pkScript := changePk }] := by
    show setLastValue (insOuts ++ [({ value := 0, pkScript := changePk } : TxOut)]) _ = _
    rw [setLastValue_concat]
  have hfeele : GetTxVirtualSize { commitEst changePk estIns insOuts with txOut := insOuts } * rate
      ≤ GetTxVirtualSize (commitEst changePk estIns insOuts) * rate := by
    apply mul_le_mul_of_nonneg_right _ hrate
    have h0 := getTxVirtualSize_dropLast_le (commitEst changePk estIns insOuts)
    rw [hdrop] at h0
    exact h0
  rw [hred, hset, hdrop]
  generalize hFee : GetTxVirtualSize (commitEst changePk estIns insOuts) * rate = fee
    at hfeele ⊢
  generalize hFeeW : GetTxVirtualSize { commitEst changePk estIns insOuts
      with txOut := insOuts } * rate = feeW at hfeele ⊢
  have hlen : ∀ v : Int,
      insOuts ++ [{ value := v, pkScript := changePk : TxOut }] ≠ insOuts := by
    intro v he
    have := congrArg List.length he
    simp at this
  refine ⟨⟨?_, ?_⟩, ⟨?_, ?_⟩, ?_⟩
  · intro heq
    by_contra h1
    rw [if_neg h1] at heq
    split_ifs at heq with h2 h3
    · have hl := congrArg
        (fun r : Except CommitBuildErr (MsgTx × Fetcher) =>
          match r with
          | .ok p => p.1.txOut.length
          | .error _ => 0) heq
      dsimp only at hl
      simp only [List.length_append, List.length_cons, List.length_nil] at hl
      omega
    · have hl := congrArg
        (fun r : Except CommitBuildErr (MsgTx × Fetcher) =>
          match r with
          | .ok p => p.1.txOut.length
          | .error _ => 0) heq
      dsimp only at hl
      simp only [List.length_append, List.length_cons, List.length_nil] at hl
      omega
  · intro h1
    rw [if_pos h1]
  · intro heq
    split_ifs at heq with h1 h2 h3
    exact h3
  · intro h3
    have hch : total - totalReveal - fee < 0 := by omega
    rw [if_neg (by omega), if_pos hch, if_pos h3]
  · intro h0 hlt
    rw [if_neg (by omega), if_neg (by omega)]

/-- Concrete values for the C1 witness. -/
def wChangePk : List Nat := 0x51 :: 0x20 :: List.replicate 32 5

def wRevealOut : TxOut := { value := 600, pkScript := wChangePk }

def wCollect : List TxIn × Fetcher × Int :=
  (collectCommitInputs testEnv [testPrevOut]).toOption.getD ([], [], 0)

def wEstIns : List TxIn :=
  (testEnv.signAll (commitEst wChangePk wCollect.1 [wRevealOut])).getD []

/-- Witness for C1: on a well-funded concrete request the change output
is retained with the exact change value. -/
theorem claim_C1_witness :
    buildCommitTx testEnv [testPrevOut] "addr3" 600 1 546 [some wRevealOut]
      = .ok ({ commitEst wChangePk wEstIns [wRevealOut] with
          txOut := [wRevealOut] ++ [{ value := wCollect.2.2 - 600 - GetTxVirtualSize (commitEst wChangePk wEstIns [wRevealOut]) * 1, pkScript := wChangePk }] },
        wCollect.2.1) :=
  have hins : collectCommitInputs testEnv [testPrevOut]
      = .ok (wCollect.1, wCollect.2.1, wCollect.2.2) := by decide
  have hsign : testEnv.signAll (commitEst wChangePk wCollect.1 [wRevealOut])
      = some wEstIns := by decide
  (claim_C1 testEnv [testPrevOut] "addr3" 600 1 546 [some wRevealOut]
    (by decide) hins rfl hsign (by decide) (by decide)).1.mpr (by decide)

/-! ## Claim C10: MPC entry points return a bare error on insufficiency -/

/-- C10: when the commit funding is insufficient in the MPC change
decision, InscribeForMPCUnsigned returns an error (no response bundle
with fees or addresses), for any hash parameters, and
InscribeForMPCSigned propagates the same bare error. -/
theorem claim_C10 (env : Env) (req : InscriptionRequest)
    {p0 : PrevOutput} (hp : req.commitTxPrevOutputList.head? = some p0)
    {k : Nat} (hk : env.wifDecode p0.privateKey = some k)
    {ctxs : List CtxData}
    (hctxs : mkCtxList env req 0 req.inscriptionDataList.length = .ok ctxs)
    {revealTxs : List MsgTx} {ctxs' : List CtxData} {commitOuts : List TxOut}
    {totalRevealIn : Int}
    (hloop : mpcRevealLoop env req 0 ctxs = .ok (revealTxs, ctxs', commitOuts, totalRevealIn))
    {ins : List TxIn} {fetcher : Fetcher} {totalCommitIn : Int}
    (hcoll : collectCommitInputs env req.commitTxPrevOutputList
      = .ok (ins, fetcher, totalCommitIn))
    {changePk : List Nat} (hc : env.addrToPkScript req.changeAddress = some changePk)
    {estIns : List TxIn}
    (hsign : env.signAll (commitEst changePk ins commitOuts) = some estIns)
    (hch : totalCommitIn - totalRevealIn
        - GetTxVirtualSize (commitEst changePk estIns commitOuts) * req.commitFeeRate
      < effMinChangeValue req)
    (hw : totalCommitIn - totalRevealIn
        - GetTxVirtualSize { commitEst changePk estIns commitOuts with txOut := commitOuts }
            * req.commitFeeRate
      < 0) :
    (∀ uh sh, InscribeForMPCUnsigned env req uh sh = .error "insufficient balance")
    ∧ (∀ (hex : String) (sigs : List String) (tx : MsgTx) (ins' : List TxIn),
        env.txFromHex hex = some tx →
        spliceSigs env tx.txIn sigs = .ok ins' →
        InscribeForMPCSigned env req hex sigs = .error "insufficient balance") := by
  have hmain : ∀ uh sh, InscribeForMPCUnsigned env req uh sh = .error "insufficient balance" := by
    intro uh sh
    unfold InscribeForMPCUnsigned
    rw [hp]
    simp only [ofOption, bind, Except.bind, pure, Except.pure]
    rw [hk]
    simp only [ofOption, bind, Except.bind, pure, Except.pure]
    rw [hctxs]
    simp only [ofOption, bind, Except.bind, pure, Except.pure]
    rw [hloop]
    simp only [ofOption, bind, Except.bind, pure, Except.pure]
    rw [show collectCommitInputs env req.commitTxPrevOutputList
      = .ok (ins, fetcher, totalCommitIn) from hcoll]
    simp only [ofOption, bind, Except.bind, pure, Except.pure]
    rw [hc]
    simp only [ofOption, bind, Except.bind, pure, Except.pure]
    rw [show env.signAll { version := DefaultTxVersion
                           txIn := ins
                           txOut := commitOuts ++ [{ value := 0, pkScript := changePk }]
                           lockTime := 0 } = some estIns from hsign]
    simp only [ofOption, bind, Except.bind, pure, Except.pure, throw, throwThe,
      MonadExceptOf.throw]
    simp only [List.dropLast_concat]
    rw [show ({ version := DefaultTxVersion
                txIn := estIns
                txOut := commitOuts ++ [{ value := 0, pkScript := changePk }]
                lockTime := 0 } : MsgTx) = commitEst changePk estIns commitOuts from rfl]
    rw [show ({ version := DefaultTxVersion
                txIn := estIns
                txOut := commitOuts
                lockTime := 0 } : MsgTx)
        = { commitEst changePk estIns commitOuts with txOut := commitOuts } from rfl]
    generalize hF : GetTxVirtualSize (commitEst changePk estIns commitOuts)
      * req.commitFeeRate = fee at hch ⊢
    generalize hFW : GetTxVirtualSize { commitEst changePk estIns commitOuts
      with txOut := commitOuts } * req.commitFeeRate = feeW at hw ⊢
    rw [if_neg (by omega), if_pos (by omega)]
  refine ⟨hmain, ?_⟩
  intro hex sigs tx ins' htx hsplice
  unfold InscribeForMPCSigned
  rw [htx]
  simp only [ofOption, bind, Except.bind, pure, Except.pure]
  rw [hsplice]
  simp only [ofOption, bind, Except.bind, pure, Except.pure]
  rw [hmain]

/-- Concrete values for the C10 witness, computed on the underfunded
test request. -/
def mpcCtxs : List CtxData :=
  (mkCtxList testEnv poorRequest 0 poorRequest.inscriptionDataList.length).toOption.getD []

def mpcLoop : List MsgTx × List CtxData × List TxOut × Int :=
  (mpcRevealLoop testEnv poorRequest 0 mpcCtxs).toOption.getD ([], [], [], 0)

def mpcColl : List TxIn × Fetcher × Int :=
  (collectCommitInputs testEnv poorRequest.commitTxPrevOutputList).toOption.getD ([], [], 0)

def mpcEstIns : List TxIn :=
  (testEnv.signAll (commitEst wChangePk mpcColl.1 mpcLoop.2.2.1)).getD []

def mpcSigA : String := String.mk (List.replicate 128 'a')
def mpcSigB : String := String.mk (List.replicate 128 'b')

def mpcSpliced : List TxIn :=
  (spliceSigs testEnv testSeededCommit.txIn [mpcSigA, mpcSigB]).toOption.getD []

/-- Witness for C10: the underfunded request makes both MPC entry
points return the bare insufficient-balance error. -/
theorem claim_C10_witness :
    InscribeForMPCUnsigned testEnv poorRequest none none = .error "insufficient balance"
      ∧ InscribeForMPCSigned testEnv poorRequest "00" [mpcSigA, mpcSigB]
          = .error "insufficient balance" :=
  have hctxs : mkCtxList testEnv poorRequest 0 poorRequest.inscriptionDataList.length
      = .ok mpcCtxs := by decide
  have hloop : mpcRevealLoop testEnv poorRequest 0 mpcCtxs
      = .ok (mpcLoop.1, mpcLoop.2.1, mpcLoop.2.2.1, mpcLoop.2.2.2) := by decide
  have hcoll : collectCommitInputs testEnv poorRequest.commitTxPrevOutputList
      = .ok (mpcColl.1, mpcColl.2.1, mpcColl.2.2) := by decide
  have hsign : testEnv.signAll (commitEst wChangePk mpcColl.1 mpcLoop.2.2.1)
      = some mpcEstIns := by decide
  have hsplice : spliceSigs testEnv testSeededCommit.txIn [mpcSigA, mpcSigB]
      = .ok mpcSpliced := by decide
  have c := claim_C10 testEnv poorRequest rfl rfl hctxs hloop hcoll rfl hsign
    (by decide) (by decide)
  ⟨c.1 none none, c.2 "00" [mpcSigA, mpcSigB] testSeededCommit mpcSpliced rfl hsplice⟩

/-! ## Claim C8: MPC signature splicing -/

/-- A successful signature parse decomposes into the two 64-hex-char
halves, their mod-n values, the DER encoding and the SIGHASH_ALL byte. -/
theorem parseMpcSignature_ok {env : Env} {s : String} {sig : List Nat}
    (h : parseMpcSignature env s = .ok sig) :
    ∃ rB sB, hexDecode (s.toList.take 64) = some rB
      ∧ hexDecode ((s.toList.drop 64).take 64) = some sB
      ∧ sig = env.derSig (bytesBE rB % secpN) (bytesBE sB % secpN) ++ [SigHashAll] := by
  unfold parseMpcSignature at h
  split_ifs at h with hl
  · exact absurd h (by simp [throw, throwThe, MonadExceptOf.throw, bind, Except.bind])
  · obtain ⟨u, hu, h⟩ := exceptBind_ok h
    obtain ⟨rB, hr, h⟩ := exceptBind_ok h
    obtain ⟨sB, hs, h⟩ := exceptBind_ok h
    rw [ofOption_ok] at hr hs
    simp only [pure, Except.pure, Except.ok.injEq] at h
    exact ⟨rB, sB, hr, hs, h.symm⟩

/-- If a checked push left the error flag clear, the input builder was
clean and the push appended the canonical encoding. -/
theorem addData_ok_inv {c : ScriptBuilder} {d : List Nat}
    (h : (c.addData d).err = false) :
    c.err = false ∧ (c.addData d).script = c.script ++ canonPush d := by
  unfold ScriptBuilder.addData at h ⊢
  split_ifs at h ⊢ with h1 h2 h3
  · exact absurd h (by simp [h1])
  · exact ⟨by simpa using h, rfl⟩

/-- Two consecutive checked pushes that produce a script yield the two
canonical pushes in order. -/
theorem scriptBuilder_two_pushes {a b s : List Nat}
    (h : ((ScriptBuilder.new.addData a).addData b).result = some s) :
    s = canonPush a ++ canonPush b := by
  unfold ScriptBuilder.result at h
  split_ifs at h with he
  have he' : ((ScriptBuilder.new.addData a).addData b).err = false := by
    simpa using he
  obtain ⟨he1, hs1⟩ := addData_ok_inv he'
  obtain ⟨he0, hs0⟩ := addData_ok_inv he1
  simp only [Option.some.injEq] at h
  rw [← h, hs1, hs0]
  simp [ScriptBuilder.new]

/-- Structure of a successful spliceSigs run: each input is populated
per the seeded-witness shape with the parsed signature. -/
theorem spliceSigs_spec {env : Env} : ∀ {tins : List TxIn} {sigs : List String}
    {ins' : List TxIn}, spliceSigs env tins sigs = .ok ins' →
    ins'.length = tins.length
    ∧ ∀ i (hi : i < tins.length) (hi' : i < ins'.length) (hs : i < sigs.length),
      ∃ sig, parseMpcSignature env (sigs.get ⟨i, hs⟩) = .ok sig
        ∧ ((tins.get ⟨i, hi⟩).witness = [] →
            ins'.get ⟨i, hi'⟩ = { tins.get ⟨i, hi⟩ with
              signatureScript := canonPush sig ++ canonPush (tins.get ⟨i, hi⟩).signatureScript })
        ∧ ∀ w0 ws, (tins.get ⟨i, hi⟩).witness = w0 :: ws →
            ins'.get ⟨i, hi'⟩ = { tins.get ⟨i, hi⟩ with witness := [sig, w0] } := by
  intro tins sigs ins' h
  induction tins generalizing sigs ins' with
  | nil =>
    unfold spliceSigs at h
    injection h with h
    subst h
    exact ⟨rfl, fun i hi => absurd hi (by simp)⟩
  | cons ti tis ih =>
    match sigs with
    | [] => exact absurd h (by simp [spliceSigs])
    | sg :: sgs =>
      unfold spliceSigs at h
      obtain ⟨sig, hsig, h⟩ := exceptBind_ok h
      obtain ⟨ti', hti', h⟩ := exceptBind_ok h
      obtain ⟨rest, hrest, h⟩ := exceptBind_ok h
      simp only [Except.ok.injEq] at h
      subst h
      obtain ⟨ihlen, ihall⟩ := ih hrest
      refine ⟨by simpa using ihlen, ?_⟩
      intro i hi hi' hs
      match i with
      | 0 =>
        refine ⟨sig, hsig, ?_, ?_⟩
        · intro hw
          have hw' : ti.witness = [] := hw
          rw [hw'] at hti'
          dsimp only at hti'
          cases hres : ((ScriptBuilder.new.addData sig).addData ti.signatureScript).result with
          | none =>
            rw [hres] at hti'
            exact absurd hti' (by simp)
          | some sc =>
            rw [hres] at hti'
            simp only [Except.ok.injEq] at hti'
            have hsc := scriptBuilder_two_pushes hres
            subst hsc
            show ti' = { ti with
              signatureScript := canonPush sig ++ canonPush ti.signatureScript }
            rw [hw']
            exact hti'.symm
        · intro w0 ws hw
          have hw' : ti.witness = w0 :: ws := hw
          rw [hw'] at hti'
          dsimp only at hti'
          simp only [Except.ok.injEq] at hti'
          exact hti'.symm
      | n + 1 =>
        obtain ⟨sig', h1, h2, h3⟩ := ihall n (by simpa using hi) (by simpa using hi')
          (by simpa using hs)
        exact ⟨sig', h1, h2, h3⟩

/-- The MPC reveal loop produces one single-input transaction and one
updated context per inscription context. -/
theorem mpcRevealLoop_spec {env : Env} {req : InscriptionRequest} :
    ∀ {i : Nat} {ctxs : List CtxData} {txs : List MsgTx} {ctxs' : List CtxData}
      {pos : List TxOut} {total : Int},
    mpcRevealLoop env req i ctxs = .ok (txs, ctxs', pos, total) →
    txs.length = ctxs.length ∧ ctxs'.length = ctxs.length
      ∧ ∀ t ∈ txs, ∃ ti, t.txIn = [ti] := by
  intro i ctxs
  induction ctxs generalizing i with
  | nil =>
    intro txs ctxs' pos total h
    unfold mpcRevealLoop at h
    simp only [Except.ok.injEq, Prod.mk.injEq] at h
    obtain ⟨h1, h2, h3, h4⟩ := h
    subst h1
    subst h2
    exact ⟨rfl, rfl, fun t ht => absurd ht (by simp)⟩
  | cons ctx ctxs ih =>
    intro txs ctxs' pos total h
    unfold mpcRevealLoop at h
    obtain ⟨step, hstep, h⟩ := exceptBind_ok h
    obtain ⟨tx, v, ctx1, po⟩ := step
    dsimp only at h
    obtain ⟨rest, hrest, h⟩ := exceptBind_ok h
    obtain ⟨txs1, ctxs1, pos1, total1⟩ := rest
    dsimp only at h
    simp only [pure, Except.pure, Except.ok.injEq, Prod.mk.injEq] at h
    obtain ⟨h1, h2, h3, h4⟩ := h
    subst h1
    subst h2
    obtain ⟨l1, l2, lone⟩ := ih hrest
    refine ⟨by simp [l1], by simp [l2], ?_⟩
    intro t ht
    rcases List.mem_cons.mp ht with heq | hmem
    · subst heq
      unfold mpcRevealStep at hstep
      obtain ⟨insData, hins, hstep⟩ := exceptBind_ok hstep
      obtain ⟨pk, hpk, hstep⟩ := exceptBind_ok hstep
      simp only [pure, Except.pure, Except.ok.injEq, Prod.mk.injEq] at hstep
      obtain ⟨he1, _⟩ := hstep
      rw [← he1]
      exact ⟨_, rfl⟩
    · exact lone t hmem

/-- The MPC signing loop rewrites every input of every returned reveal
transaction to spend from the given commit hash, provided it consumes
one single-input transaction per context. -/
theorem mpcSignLoop_hashes {env : Env} {k : Nat} {hsh : List Nat} :
    ∀ {i : Nat} {ctxs : List CtxData} {txs ts : List MsgTx} {fees : List Int}
      {addrs : List String},
    ctxs.length = txs.length →
    (∀ t ∈ txs, ∃ ti, t.txIn = [ti]) →
    mpcSignLoop env k hsh i ctxs txs = .ok (ts, fees, addrs) →
    ∀ t ∈ ts, ∀ ti ∈ t.txIn, ti.previousOutPoint.hash = hsh := by
  intro i ctxs
  induction ctxs generalizing i with
  | nil =>
    intro txs ts fees addrs hlen hone h
    have htxs : txs = [] := List.eq_nil_of_length_eq_zero (by simpa using hlen.symm)
    subst htxs
    unfold mpcSignLoop at h
    simp only [Except.ok.injEq, Prod.mk.injEq] at h
    obtain ⟨h1, _, _⟩ := h
    subst h1
    intro t ht
    exact absurd ht (by simp)
  | cons ctx ctxs ih =>
    intro txs ts fees addrs hlen hone h
    match txs with
    | [] => simp at hlen
    | tx :: txs =>
      obtain ⟨ti0, hti0⟩ := hone tx (by simp)
      unfold mpcSignLoop at h
      obtain ⟨tx1, h1, h⟩ := exceptBind_ok h
      obtain ⟨po, hpo, h⟩ := exceptBind_ok h
      obtain ⟨tx2, h2, h⟩ := exceptBind_ok h
      obtain ⟨rest, hrest, h⟩ := exceptBind_ok h
      obtain ⟨ts', fees', addrs'⟩ := rest
      dsimp only at h
      simp only [pure, Except.pure, Except.ok.injEq, Prod.mk.injEq] at h
      obtain ⟨hts, _, _⟩ := h
      subst hts
      unfold setPrevHash at h1
      rw [hti0] at h1
      dsimp only at h1
      simp only [Except.ok.injEq] at h1
      unfold setWitness0 at h2
      rw [← h1] at h2
      dsimp only at h2
      simp only [Except.ok.injEq] at h2
      intro t ht
      rcases List.mem_cons.mp ht with heq | hmem
      · subst heq
        rw [← h2]
        intro ti hti
        simp only [List.mem_singleton] at hti
        subst hti
        rfl
      · exact ih (by simpa using hlen) (fun t' ht' => hone t' (by simp [ht'])) hrest t hmem

/-- A successful MPC build invoked with an explicit signed commit hash
spends every reveal input from that hash. -/
theorem mpcUnsigned_reveal_hashes {env : Env} {req : InscriptionRequest}
    {uch : Option (List Nat)} {hsh : List Nat} {res : InscribeForMPCRes}
    (hu : InscribeForMPCUnsigned env req uch (some hsh) = .ok res) :
    ∀ t ∈ res.revealTxList, ∀ ti ∈ t.txIn, ti.previousOutPoint.hash = hsh := by
  unfold InscribeForMPCUnsigned at hu
  obtain ⟨p0, hp0, hu⟩ := exceptBind_ok hu
  obtain ⟨k, hk, hu⟩ := exceptBind_ok hu
  obtain ⟨ctxs, hctxs, hu⟩ := exceptBind_ok hu
  obtain ⟨quad, hloop, hu⟩ := exceptBind_ok hu
  obtain ⟨revealTxs, ctxs', commitOuts, totalRevealIn⟩ := quad
  dsimp only at hu
  obtain ⟨l1, l2, lone⟩ := mpcRevealLoop_spec hloop
  cases hcoll : collectCommitInputs env req.commitTxPrevOutputList with
  | error e =>
    rw [hcoll] at hu
    simp [throw, throwThe, MonadExceptOf.throw, bind, Except.bind] at hu
  | ok trip =>
    rw [hcoll] at hu
    dsimp only at hu
    obtain ⟨tripv, htripv, hu⟩ := exceptBind_ok hu
    obtain ⟨changePk, hcpk, hu⟩ := exceptBind_ok hu
    obtain ⟨estIns, hest, hu⟩ := exceptBind_ok hu
    split_ifs at hu with hc1 hc2
    rotate_left 1
    · simp [throw, throwThe, MonadExceptOf.throw, bind, Except.bind] at hu
    all_goals
      obtain ⟨ct2, hct2, hu⟩ := exceptBind_ok hu
      obtain ⟨pair, hsig, hu⟩ := exceptBind_ok hu
      obtain ⟨sigHashList, seededIns⟩ := pair
      dsimp only at hu
      obtain ⟨trip2, hsign, hu⟩ := exceptBind_ok hu
      obtain ⟨signedReveals, revealFees, commitAddrs⟩ := trip2
      dsimp only at hu
      simp only [pure, Except.pure, Except.ok.injEq] at hu
      have hall := mpcSignLoop_hashes (by rw [l2, ← l1]) lone hsign
      rw [← hu]
      exact hall

/-- C8: InscribeForMPCSigned parses each signature as 64 hex characters
of r followed by 64 of s, each reduced mod the group order,
DER-encoded with the SIGHASH_ALL byte appended; splices it into the
deserialized commit per the seeded shape of each input (scriptSig
pushes sig then the seeded scriptSig pubkey on legacy inputs, witness
[sig, seeded witness head] on segwit inputs); and returns a response
with a null sigHashList, the signed commit hex as commitTx, and every
reveal input spending the signed commit txid. -/
theorem claim_C8 (env : Env) (req : InscriptionRequest) (hex : String)
    (sigs : List String) {tx : MsgTx} (htx : env.txFromHex hex = some tx)
    {res : InscribeForMPCRes}
    (hres : InscribeForMPCSigned env req hex sigs = .ok res) :
    ∃ ins', spliceSigs env tx.txIn sigs = .ok ins'
      ∧ ins'.length = tx.txIn.length
      ∧ (∀ i (hi : i < tx.txIn.length) (hi' : i < ins'.length) (hs : i < sigs.length),
          ∃ rB sB,
            hexDecode ((sigs.get ⟨i, hs⟩).toList.take 64) = some rB
            ∧ hexDecode (((sigs.get ⟨i, hs⟩).toList.drop 64).take 64) = some sB
            ∧ ((tx.txIn.get ⟨i, hi⟩).witness = [] →
                ins'.get ⟨i, hi'⟩ = { tx.txIn.get ⟨i, hi⟩ with
                  signatureScript :=
                    canonPush (env.derSig (bytesBE rB % secpN) (bytesBE sB % secpN)
                        ++ [SigHashAll])
                      ++ canonPush (tx.txIn.get ⟨i, hi⟩).signatureScript })
            ∧ ∀ w0 ws, (tx.txIn.get ⟨i, hi⟩).witness = w0 :: ws →
                ins'.get ⟨i, hi'⟩ = { tx.txIn.get ⟨i, hi⟩ with
                  witness := [env.derSig (bytesBE rB % secpN) (bytesBE sB % secpN)
                    ++ [SigHashAll], w0] })
      ∧ res.sigHashList = none
      ∧ res.commitTx = env.txHex { tx with txIn := ins' }
      ∧ res.commitTxMsg = { tx with txIn := ins' }
      ∧ ∀ t ∈ res.revealTxList, ∀ ti ∈ t.txIn,
          ti.previousOutPoint.hash = env.txHash { tx with txIn := ins' } := by
  unfold InscribeForMPCSigned at hres
  obtain ⟨tx0, htx0, hres⟩ := exceptBind_ok hres
  rw [ofOption_ok, htx] at htx0
  injection htx0 with htx0
  subst htx0
  obtain ⟨ins', hspl, hres⟩ := exceptBind_ok hres
  obtain ⟨res0, hres0, hres⟩ := exceptBind_ok hres
  simp only [pure, Except.pure, Except.ok.injEq] at hres
  obtain ⟨hlen, hall⟩ := spliceSigs_spec hspl
  refine ⟨ins', hspl, hlen, ?_, ?_, ?_, ?_, ?_⟩
  · intro i hi hi' hs
    obtain ⟨sig, hsig, hnil, hcons⟩ := hall i hi hi' hs
    obtain ⟨rB, sB, hr, hs', hsigeq⟩ := parseMpcSignature_ok hsig
    subst hsigeq
    exact ⟨rB, sB, hr, hs', hnil, hcons⟩
  · rw [← hres]
  · rw [← hres]
  · rw [← hres]
  · rw [← hres]
    have hrev0 := mpcUnsigned_reveal_hashes hres0
    exact hrev0

/-- Concrete signatures and results for the C8 witness. -/
def c8SigA : String := String.mk (List.replicate 128 'a')

def c8SigB : String := String.mk (List.replicate 128 'b')

def c8Ins : List TxIn :=
  (spliceSigs testEnv testSeededCommit.txIn [c8SigA, c8SigB]).toOption.getD []

def c8res : InscribeForMPCRes :=
  (InscribeForMPCSigned testEnv testRequest "00" [c8SigA, c8SigB]).toOption.getD
    { sigHashList := none, commitTx := "", revealTxs := [], commitTxFee := 0,
      revealTxFees := [], commitAddrs := [],
      commitTxMsg := { version := 0, txIn := [], txOut := [], lockTime := 0 },
      revealTxList := [] }

/-! ## Claim C5: reveal inputs and witnesses after completion -/

/-- Pointwise characterization of a successful zipModify run. -/
theorem zipModify_get {f : CtxData → MsgTx → Except String MsgTx} :
    ∀ {cs : List CtxData} {ts ts' : List MsgTx},
    zipModify f cs ts = .ok ts' →
    ts'.length = ts.length
    ∧ ∀ i (hc : i < cs.length) (ht : i < ts.length) (ht' : i < ts'.length),
        f (cs.get ⟨i, hc⟩) (ts.get ⟨i, ht⟩) = .ok (ts'.get ⟨i, ht'⟩) := by
  intro cs
  induction cs with
  | nil =>
    intro ts ts' h
    unfold zipModify at h
    injection h with h
    subst h
    exact ⟨rfl, fun i hc => absurd hc (by simp)⟩
  | cons c cs ih =>
    intro ts ts' h
    match ts with
    | [] => exact absurd h (by simp [zipModify])
    | t :: ts =>
      unfold zipModify at h
      obtain ⟨t', ht', h⟩ := exceptBind_ok h
      obtain ⟨ts1, hts1, h⟩ := exceptBind_ok h
      simp only [pure, Except.pure, Except.ok.injEq] at h
      subst h
      obtain ⟨ihlen, ihget⟩ := ih hts1
      refine ⟨by simpa using ihlen, ?_⟩
      intro i hc hcT hcT'
      match i with
      | 0 => exact ht'
      | n + 1 =>
        exact ihget n (by simpa using hc) (by simpa using hcT) (by simpa using hcT')

/-- The reveal skeleton with its single input repointed at the commit
transaction: the state over which the tapscript sighash is computed. -/
def hashedRevealTx (env : Env) (c : MsgTx) (i : Nat) (rov : Int) (pk : List Nat) : MsgTx :=
  { version := DefaultTxVersion
    txIn := [{ previousOutPoint := { hash := env.txHash c, index := i }
               signatureScript := []
               witness := []
               sequence := DefaultSequenceNum }]
    txOut := [{ value := rov, pkScript := pk }]
    lockTime := 0 }

/-- C5: after a successful reveal completion over a pre-sized build,
reveal transaction i has exactly one input, whose previous outpoint is
(commit txid, i) and whose witness is the three-element list [64-byte
schnorr signature, leaf script i, control block i], the signature being
produced with the inscription private key over the tapscript sighash of
the repointed transaction at input 0 with SIGHASH_DEFAULT. -/
theorem claim_C5 (env : Env) (ctxs : List CtxData) (dests : List String)
    (rov rate : Int) (rb : RevealBuild)
    (hrb : buildEmptyRevealTx env ctxs dests rov rate = .ok rb)
    (commitTx : MsgTx) (out : List MsgTx × Fetcher)
    (hc : completeRevealTx env commitTx rb.ctxList rb.revealTx = .ok out)
    (hsig64 : ∀ k d, (env.schnorrSign k d).length = 64) :
    out.1.length = ctxs.length
    ∧ ∀ i (hi : i < ctxs.length) (hd : i < dests.length) (ho : i < out.1.length),
      ∃ pk sig,
        env.addrToPkScript (dests.get ⟨i, hd⟩) = some pk
        ∧ sig.length = 64
        ∧ sig = env.schnorrSign (ctxs.get ⟨i, hi⟩).privateKey
            (env.tapscriptSigHash SigHashDefault (hashedRevealTx env commitTx i rov pk) 0
              (ctxs.get ⟨i, hi⟩).inscriptionScript)
        ∧ out.1.get ⟨i, ho⟩ = { hashedRevealTx env commitTx i rov pk with
            txIn := [{ previousOutPoint := { hash := env.txHash commitTx, index := i }
                       signatureScript := []
                       witness := [sig, (ctxs.get ⟨i, hi⟩).inscriptionScript,
                                   (ctxs.get ⟨i, hi⟩).controlBlockWitness]
                       sequence := DefaultSequenceNum }] } := by
  obtain ⟨hlen, hr, hm, hcl, htot, hall⟩ := buildEmptyRevealTxAux_spec hrb
  unfold completeRevealTx at hc
  obtain ⟨fetcher, hf, hc⟩ := exceptBind_ok hc
  obtain ⟨txs1, h1, hc⟩ := exceptBind_ok hc
  obtain ⟨txs2, h2, hc⟩ := exceptBind_ok hc
  obtain ⟨u, hwc, hc⟩ := exceptBind_ok hc
  simp only [pure, Except.pure, Except.ok.injEq] at hc
  subst hc
  obtain ⟨z1len, z1get⟩ := zipModify_get h1
  obtain ⟨z2len, z2get⟩ := zipModify_get h2
  have hlens : txs2.length = ctxs.length := by rw [z2len, z1len, hr]
  refine ⟨hlens, ?_⟩
  intro i hi hd ho
  have hiR : i < rb.revealTx.length := by rw [hr]; exact hi
  have hiC : i < rb.ctxList.length := by rw [hcl]; exact hi
  have hi1 : i < txs1.length := by rw [z1len]; exact hiR
  have hi2 : i < txs2.length := by rw [z2len]; exact hi1
  obtain ⟨pk, hpk, e1, e2, e3⟩ := hall i hi hd hiR (by rw [hm]; exact hi) hiC
  refine ⟨pk, _, hpk, hsig64 _ _, rfl, ?_⟩
  have g1 := z1get i hiC hiR hi1
  rw [e1] at g1
  simp only [Nat.zero_add] at g1
  unfold setPrevHash skeletalRevealTx at g1
  dsimp only at g1
  simp only [Except.ok.injEq] at g1
  have g1x : txs1.get ⟨i, hi1⟩ = hashedRevealTx env commitTx i rov pk := by
    rw [← g1]
    rfl
  have g2 := z2get i hiC hi1 hi2
  rw [e2, g1x] at g2
  unfold setRevealWitness hashedRevealTx sizedCtx at g2
  dsimp only at g2
  simp only [Except.ok.injEq] at g2
  exact g2.symm

/-- Concrete pre-sized build and completion output for the C5 witness. -/
def c5rb : RevealBuild :=
  (buildEmptyRevealTx testEnv [testCtx0] ["addr2"] 546 1).toOption.getD ⟨[], [], [], [], 0⟩

def c5out : List MsgTx × Fetcher :=
  (completeRevealTx testEnv testCommitStub c5rb.ctxList c5rb.revealTx).toOption.getD ([], [])

/-- Witness for C5: a concrete successful build-and-complete run
producing exactly one reveal transaction. -/
theorem claim_C5_witness :
    completeRevealTx testEnv testCommitStub c5rb.ctxList c5rb.revealTx = .ok c5out
      ∧ c5out.1.length = 1 := by
  have hrb : buildEmptyRevealTx testEnv [testCtx0] ["addr2"] 546 1 = .ok c5rb := by decide
  have hc : completeRevealTx testEnv testCommitStub c5rb.ctxList c5rb.revealTx
      = .ok c5out := by decide
  have h := claim_C5 testEnv [testCtx0] ["addr2"] 546 1 c5rb hrb testCommitStub c5out hc
    (fun k d => rfl)
  exact ⟨hc, h.1⟩

/-- Witness for C8: a successful signed MPC run on the fixtures yields a
null sigHashList and the spliced commit message. -/
theorem claim_C8_witness :
    c8res.sigHashList = none
      ∧ c8res.commitTxMsg = { testSeededCommit with txIn := c8Ins } := by
  have hres : InscribeForMPCSigned testEnv testRequest "00" [c8SigA, c8SigB]
      = .ok c8res := by decide
  obtain ⟨ins', hspl, hlen, hper, hnull, hhex, hmsg, hrev⟩ :=
    claim_C8 testEnv testRequest "00" [c8SigA, c8SigB]
      (show testEnv.txFromHex "00" = some testSeededCommit by decide) hres
  have hci : spliceSigs testEnv testSeededCommit.txIn [c8SigA, c8SigB] = .ok c8Ins := by
    decide
  rw [hspl] at hci
  injection hci with hci
  rw [← hci]
  exact ⟨hnull, hmsg⟩

end Inscribe
